import Mathlib

/-!
Verification of the Croc execution core against its specification.

This file gives a shallow embedding, in Lean 4, of the parts of the Croc
implementation that the checked claims are about:

* the tagged value union `CrocValue` with its equality and truthiness
  predicates (from `src/croc/types.d`, struct `CrocValue`);
* the serialization module (from the Croc-script serialization library:
  classes `Serializer` and `Deserializer`, functions `serializeGraph`,
  `deserializeGraph`, `serializeModule`, `deserializeModule`);
* the open-addressing-with-chains hash table (from
  `src/croc/base/hash.hpp`, struct `Hash`).

Machine integers are modelled as `Int`/`Nat` with explicit `% 2 ^ 64`
where wrap-around matters.  IEEE-754 binary64 floats are modelled by
their 64-bit patterns (`Nat` below `2 ^ 64`) together with the predicates
needed to express host `==` semantics (`+0.0 == -0.0`, `NaN != NaN`);
no floating-point arithmetic is performed anywhere in the embedded code.
-/

namespace Croc

/-! ## IEEE-754 binary64 bit-pattern model

A Croc `float` is a D `double`.  We represent a double by its 64-bit
pattern.  `floatIsZero` holds exactly for the patterns of `0.0` and
`-0.0`; `floatIsNaN` holds for the NaN patterns (exponent field all ones,
nonzero mantissa).  `floatEq` is host `==` on doubles: false if either
side is NaN, true on `+0.0 == -0.0`, and bit equality otherwise (binary64
has no other value aliasing). -/

def floatIsZero (bits : Nat) : Bool :=
  bits == 0 || bits == 2 ^ 63

def floatIsNaN (bits : Nat) : Bool :=
  (bits / 2 ^ 52) % 2 ^ 11 == 0x7FF && bits % 2 ^ 52 != 0

def floatEq (a b : Nat) : Bool :=
  !floatIsNaN a && !floatIsNaN b && (a == b || (floatIsZero a && floatIsZero b))

/-! ## CrocValue (src/croc/types.d)

The tag order follows `CrocValue.Type` exactly ("ORDER CROCVALUE TYPE").
Reference objects are modelled as indices into a heap (see `Heap` below);
a `CrocValue` carrying the same constructor and the same index is the
same object, which is the model of pointer identity.  Strings are
interned (at most one live string per byte content), so the byte content
itself is a faithful model of the string pointer. -/

inductive CrocType where
  | nullT | boolT | intT | floatT
  | nativeobjT | stringT | weakrefT
  | tableT | namespaceT | arrayT | memblockT
  | functionT | funcdefT | classT | instanceT | threadT
deriving DecidableEq, Repr

/-- The numeric value of each `CrocValue.Type` enum member. -/
def CrocType.tag : CrocType → Nat
  | .nullT => 0 | .boolT => 1 | .intT => 2 | .floatT => 3
  | .nativeobjT => 4 | .stringT => 5 | .weakrefT => 6
  | .tableT => 7 | .namespaceT => 8 | .arrayT => 9 | .memblockT => 10
  | .functionT => 11 | .funcdefT => 12 | .classT => 13 | .instanceT => 14
  | .threadT => 15

inductive CrocValue where
  | vnull
  | vbool (b : Bool)
  | vint (i : Int)
  | vfloat (bits : Nat)
  | vnativeobj (id : Nat)
  | vstring (s : List Nat)
  | vweakref (id : Nat)
  | vtable (id : Nat)
  | vnamespace (id : Nat)
  | varray (id : Nat)
  | vmemblock (id : Nat)
  | vfunction (id : Nat)
  | vfuncdef (id : Nat)
  | vclass (id : Nat)
  | vinstance (id : Nat)
  | vthread (id : Nat)
deriving DecidableEq, Repr

def CrocValue.typeOf : CrocValue → CrocType
  | .vnull => .nullT
  | .vbool _ => .boolT
  | .vint _ => .intT
  | .vfloat _ => .floatT
  | .vnativeobj _ => .nativeobjT
  | .vstring _ => .stringT
  | .vweakref _ => .weakrefT
  | .vtable _ => .tableT
  | .vnamespace _ => .namespaceT
  | .varray _ => .arrayT
  | .vmemblock _ => .memblockT
  | .vfunction _ => .functionT
  | .vfuncdef _ => .funcdefT
  | .vclass _ => .classT
  | .vinstance _ => .instanceT
  | .vthread _ => .threadT

/-- `CrocValue.isValType`: `type < Type.FirstRefType` (= Table = 7). -/
def CrocValue.isValType (v : CrocValue) : Bool := v.typeOf.tag < 7

/-- `CrocValue.isRefType`: `type >= Type.FirstRefType` (= Table = 7). -/
def CrocValue.isRefType (v : CrocValue) : Bool := 7 ≤ v.typeOf.tag

/-- `CrocValue.opEquals`.  Differing tags compare unequal; `null` always
equals `null`; `bool`/`int` compare payloads; `float` compares payloads
with host `==`; every remaining (GC) type compares the object pointer
(`this.mBaseObj is other.mBaseObj`), which in this model is equality of
constructor-plus-identity. -/
def CrocValue.opEquals (a b : CrocValue) : Bool :=
  if a.typeOf ≠ b.typeOf then false
  else match a, b with
    | .vnull, .vnull => true
    | .vbool x, .vbool y => x == y
    | .vint x, .vint y => x == y
    | .vfloat x, .vfloat y => floatEq x y
    | x, y => x == y

/-- `CrocValue.isFalse`: `(type == Bool && mBool == false) ||
(type == Null) || (type == Int && mInt == 0) ||
(type == Float && mFloat == 0.0)`. -/
def CrocValue.isFalse : CrocValue → Bool
  | .vbool b => b == false
  | .vnull => true
  | .vint i => i == 0
  | .vfloat f => floatEq f 0
  | _ => false

/-! ## Errors

Error kinds raised by the embedded code.  `typeError` and `valueError`
are the Croc exception classes `TypeError` and `ValueError`;
`eofError` models the stream raising on a short read; `fuelError` and
`heapError` are artifacts of the embedding (non-termination of the
original code, and a dangling heap index) and are never produced on
well-formed runs. -/

inductive Err where
  | typeError | valueError | eofError | fuelError | heapError
deriving DecidableEq, Repr

/-! ## Variable-length integer encoding (Serializer._integer /
Deserializer._integer)

Croc ints are signed 64-bit; `v & 0x7F` on a two's-complement signed
integer is `v % 128` with Euclidean (nonnegative) remainder, and
`v >>= 7` is the arithmetic shift, i.e. floor division by 128, which for
the positive divisor 128 coincides with Lean's Euclidean `v / 128`. -/

/-- Bit 6 extraction, in the arithmetic form the arithmetic tactics
understand. -/
theorem and_64_eq (b : Nat) : b &&& 64 = b / 64 % 2 * 64 := by
  rw [show (64 : Nat) = 2 ^ 6 from rfl, Nat.and_two_pow,
    Nat.testBit_to_div_mod]
  rcases Nat.mod_two_eq_zero_or_one (b / 2 ^ 6) with h | h <;>
    norm_num at h ⊢ <;> simp [h]

/-- Bit 7 extraction, in arithmetic form. -/
theorem and_128_eq (b : Nat) : b &&& 128 = b / 128 % 2 * 128 := by
  rw [show (128 : Nat) = 2 ^ 7 from rfl, Nat.and_two_pow,
    Nat.testBit_to_div_mod]
  rcases Nat.mod_two_eq_zero_or_one (b / 2 ^ 7) with h | h <;>
    norm_num at h ⊢ <;> simp [h]

/-- The body of `Serializer._integer`'s `do`/`while(more)` loop: emit 7
data bits per byte, most significant bit of each byte is the
continuation flag, and stop as soon as the remaining value is all-zero
(resp. all-one) *and* bit `0x40` of the current byte already shows the
right sign.  The loop iterates at most `⌈64 / 7⌉ = 10` times on a 64-bit
Croc int, so it is expressed by recursion on that bound (the `fuel = 0`
case is unreachable for 64-bit inputs). -/
def serIntegerAux : Nat → Int → List Nat
  | 0, _ => []
  | fuel + 1, v =>
    if (v / 128 = 0 ∧ (v % 128).toNat &&& 64 = 0) ∨
       (v / 128 = -1 ∧ ¬(v % 128).toNat &&& 64 = 0)
    then [(v % 128).toNat]
    else ((v % 128).toNat ||| 128) :: serIntegerAux fuel (v / 128)

/-- `Serializer._integer` on a (64-bit) Croc int. -/
def serInteger (v : Int) : List Nat := serIntegerAux 10 v

/-- `Deserializer._integer`, reading from a byte list.  The 64-bit
accumulator `ret` is kept as its unsigned bit pattern; `ret |= x` with
wraparound is `(ret ||| x) % 2 ^ 64`, and `ret |= -(1 << shift)`
(sign extension, `0 < shift < 64`) sets exactly the bits
`shift .. 63`, i.e. ors with `2 ^ 64 - 2 ^ shift`.  Returns the final
pattern and the unconsumed bytes; a malformed overlong encoding raises
`ValueError` and running out of input raises the stream's EOF error. -/
def deserIntegerLoop (input : List Nat) (ret shift : Nat) :
    Except Err (Nat × List Nat) :=
  if 64 ≤ shift then .error .valueError
  else
    match input with
    | [] => .error .eofError
    | b :: rest =>
      let ret2 := (ret ||| ((b &&& 127) <<< shift)) % 2 ^ 64
      if b &&& 128 = 0 then
        .ok (if shift + 7 < 64 ∧ ¬(b &&& 64 = 0)
             then ret2 ||| (2 ^ 64 - 2 ^ (shift + 7))
             else ret2, rest)
      else deserIntegerLoop rest ret2 (shift + 7)

/-- Reinterpret an unsigned 64-bit pattern as a signed two's-complement
Croc int. -/
def toInt64 (n : Nat) : Int :=
  if n < 2 ^ 63 then (n : Int) else (n : Int) - 2 ^ 64

def deserInteger (input : List Nat) : Except Err (Int × List Nat) :=
  match deserIntegerLoop input 0 0 with
  | .ok (n, rest) => .ok (toInt64 n, rest)
  | .error e => .error e

/-! ### Facts about the integer encoding -/

/-- Oring a number below `2 ^ s` with a number shifted up by `s` is
addition (the bit ranges are disjoint). -/
theorem or_disjoint (s : Nat) :
    ∀ a b : Nat, a < 2 ^ s → a ||| (b <<< s) = a + b * 2 ^ s := by
  induction s with
  | zero =>
    intro a b ha
    have ha0 : a = 0 := by omega
    subst ha0
    simp [Nat.shiftLeft_zero, Nat.zero_or]
  | succ s ih =>
    intro a b ha
    have hc : b <<< (s + 1) = (b <<< s) * 2 := by
      rw [Nat.shiftLeft_eq, Nat.shiftLeft_eq, pow_succ]; ring
    have hmod : (a ||| b <<< (s + 1)) % 2 = a % 2 := by
      have h2 : (b <<< (s + 1)) % 2 = 0 := by
        rw [hc]; simp [Nat.mul_mod_left]
      have h4 := @Nat.or_mod_two_eq_one a (b <<< (s + 1))
      by_cases hone : (a ||| b <<< (s + 1)) % 2 = 1
      · have := h4.mp hone
        omega
      · have hnot : ¬(a % 2 = 1) := fun hh => hone (h4.mpr (Or.inl hh))
        omega
    have hdiv : (a ||| b <<< (s + 1)) / 2 = a / 2 ||| b <<< s := by
      rw [Nat.or_div_two, hc, Nat.mul_div_cancel _ (by norm_num : 0 < 2)]
    have hlt : a / 2 < 2 ^ s := by
      rw [pow_succ] at ha; omega
    have hsum := Nat.div_add_mod (a ||| b <<< (s + 1)) 2
    rw [hdiv, hmod, ih (a / 2) b hlt] at hsum
    rw [pow_succ]
    generalize hq : b * 2 ^ s = q at hsum
    have hq2 : b * (2 ^ s * 2) = q * 2 := by rw [← hq]; ring
    rw [hq2]
    omega

/-- Setting the continuation bit on a 7-bit byte is adding 128. -/
theorem or_128 {b : Nat} (hb : b < 128) : b ||| 128 = b + 128 := by
  have h := or_disjoint 7 b 1 hb
  simpa using h

/-- Splitting off the low Euclidean digit base 128. -/
theorem emod_split (v : Int) (M : Nat) (hM : 0 < M) :
    v % (128 * (M : Int)) = v % 128 + 128 * ((v / 128) % (M : Int)) := by
  have h0 : (128 : Int) * (v / 128) + v % 128 = v := Int.ediv_add_emod v 128
  have h1 : ((M : Int)) * (v / 128 / (M : Int)) + (v / 128) % (M : Int) = v / 128 :=
    Int.ediv_add_emod (v / 128) M
  have h2 : (0 : Int) ≤ v % 128 := Int.emod_nonneg v (by norm_num)
  have h3 : v % 128 < 128 := Int.emod_lt_of_pos v (by norm_num)
  have hMz : ((M : Int)) ≠ 0 := by exact_mod_cast hM.ne'
  have hMp : (0 : Int) < (M : Int) := by exact_mod_cast hM
  have h4 : (0 : Int) ≤ (v / 128) % (M : Int) := Int.emod_nonneg _ hMz
  have h5 : (v / 128) % (M : Int) < (M : Int) := Int.emod_lt_of_pos _ hMp
  have hv : v % 128 + 128 * ((v / 128) % (M : Int)) +
      (v / 128 / (M : Int)) * (128 * (M : Int)) = v := by
    linear_combination h0 + 128 * h1
  calc v % (128 * (M : Int))
      = (v % 128 + 128 * ((v / 128) % (M : Int)) +
          (v / 128 / (M : Int)) * (128 * (M : Int))) % (128 * (M : Int)) := by
        rw [hv]
    _ = (v % 128 + 128 * ((v / 128) % (M : Int))) % (128 * (M : Int)) :=
        Int.add_mul_emod_self
    _ = v % 128 + 128 * ((v / 128) % (M : Int)) := by
        apply Int.emod_eq_of_lt <;> omega

theorem pow_cast_int (k : Nat) : (((2 : Nat) ^ k : Nat) : Int) = (2 : Int) ^ k := by
  push_cast; ring

/-- One step of `Deserializer._integer` on a nonempty input. -/
theorem deserIntegerLoop_cons (b : Nat) (bs : List Nat) (ret shift : Nat)
    (h : ¬ 64 ≤ shift) :
    deserIntegerLoop (b :: bs) ret shift =
      (if b &&& 128 = 0 then
        .ok (if shift + 7 < 64 ∧ ¬(b &&& 64 = 0)
             then ((ret ||| ((b &&& 127) <<< shift)) % 2 ^ 64) |||
               (2 ^ 64 - 2 ^ (shift + 7))
             else (ret ||| ((b &&& 127) <<< shift)) % 2 ^ 64, bs)
       else deserIntegerLoop bs ((ret ||| ((b &&& 127) <<< shift)) % 2 ^ 64)
         (shift + 7)) := by
  rw [deserIntegerLoop]
  simp only [if_neg h]

/-- Main inversion lemma for the variable-length integer encoding: if the
remaining value `v` fits in the remaining `64 - s` bits (the invariant the
encoder maintains after emitting `s / 7` bytes), the decoding loop started
at shift `s` with the already-accumulated low bits `acc` consumes exactly
the encoder's remaining bytes and accumulates the two's-complement
pattern of `v` into bits `s ..`. -/
theorem deserIntegerLoop_serInteger :
    ∀ (n : Nat) (v : Int) (s acc : Nat) (rest : List Nat),
      s % 7 = 0 → s ≤ 63 → s + 7 * n = 70 →
      -((2 : Int) ^ (63 - s)) ≤ v → v < (2 : Int) ^ (63 - s) →
      acc < 2 ^ s →
      deserIntegerLoop (serIntegerAux n v ++ rest) acc s =
        .ok (acc + 2 ^ s * (v % ((2 : Int) ^ (64 - s))).toNat, rest) := by
  intro n
  induction n with
  | zero => intro v s acc rest hs7 hs63 hn hlo hhi hacc; omega
  | succ n ih =>
    intro v s acc rest hs7 hs63 hn hlo hhi hacc
    have hr0 : (0 : Int) ≤ v % 128 := Int.emod_nonneg v (by norm_num)
    have hr1 : v % 128 < 128 := Int.emod_lt_of_pos v (by norm_num)
    have hrv : (128 : Int) * (v / 128) + v % 128 = v := Int.ediv_add_emod v 128
    have hrlt : (v % 128).toNat < 128 := by omega
    have hrcast : ((v % 128).toNat : Int) = v % 128 := Int.toNat_of_nonneg hr0
    have h127 : (v % 128).toNat &&& 127 = (v % 128).toNat := by
      rw [show (127 : Nat) = 2 ^ 7 - 1 from rfl, Nat.and_pow_two_sub_one_eq_mod]
      omega
    have hor := or_disjoint s acc ((v % 128).toNat) hacc
    by_cases hterm : (v / 128 = 0 ∧ (v % 128).toNat &&& 64 = 0) ∨
        (v / 128 = -1 ∧ ¬(v % 128).toNat &&& 64 = 0)
    · -- the final byte of the encoding
      rw [serIntegerAux, if_pos hterm, List.singleton_append,
        deserIntegerLoop_cons _ _ _ _ (by omega)]
      have h128 : (v % 128).toNat &&& 128 = 0 := by
        rw [and_128_eq]; omega
      rw [if_pos h128, h127]
      rcases hterm with ⟨hq, hbit⟩ | ⟨hq, hbit⟩
      · -- remaining value zero, sign bit of the byte clear: v = r ∈ [0, 64)
        have hbit2 : (v % 128).toNat < 64 := by
          rw [and_64_eq] at hbit; omega
        have hveq : v = ((v % 128).toNat : Int) := by omega
        have hcastpow := pow_cast_int (63 - s)
        have hrsmallN : (v % 128).toNat < 2 ^ (63 - s) := by omega
        have hmul : (v % 128).toNat * 2 ^ s < 2 ^ 63 := by
          calc (v % 128).toNat * 2 ^ s < 2 ^ (63 - s) * 2 ^ s :=
              (Nat.mul_lt_mul_right (Nat.pos_pow_of_pos s (by norm_num))).mpr
                hrsmallN
            _ = 2 ^ 63 := by rw [← pow_add]; congr 1; omega
        have hles : (2 : Nat) ^ s ≤ 2 ^ 63 :=
          Nat.pow_le_pow_right (by norm_num) hs63
        have hsum_lt : acc + (v % 128).toNat * 2 ^ s < 2 ^ 64 := by omega
        rw [if_neg (fun hc => hc.2 hbit), hor, Nat.mod_eq_of_lt hsum_lt]
        have hm64 : v % (2 : Int) ^ (64 - s) = v := by
          apply Int.emod_eq_of_lt (by omega)
          have hstep : (2 : Int) ^ (63 - s) ≤ 2 ^ (64 - s) :=
            pow_le_pow_right₀ (by norm_num) (by omega)
          omega
        have hfin : acc + (v % 128).toNat * 2 ^ s =
            acc + 2 ^ s * (v % (2 : Int) ^ (64 - s)).toNat := by
          rw [hm64, show v.toNat = (v % 128).toNat by omega, mul_comm]
        rw [hfin]
      · -- remaining value all-ones, sign bit of the byte set: v = r - 128
        have hbit2 : 64 ≤ (v % 128).toNat := by
          rw [and_64_eq] at hbit; omega
        have hveq : v = ((v % 128).toNat : Int) - 128 := by omega
        rcases (by omega : s ≤ 56 ∨ s = 63) with hs56 | hs631
        · -- a middle shift: sign extension fires
          have hP7 : (2 : Nat) ^ (s + 7) = 128 * 2 ^ s := by
            rw [pow_add, mul_comm]; norm_num
          have hmul : (v % 128).toNat * 2 ^ s ≤ 127 * 2 ^ s :=
            Nat.mul_le_mul_right _ (by omega)
          have hlt2 : acc + (v % 128).toNat * 2 ^ s < 2 ^ (s + 7) := by
            rw [hP7]; omega
          have hle63 : (2 : Nat) ^ (s + 7) ≤ 2 ^ 63 :=
            Nat.pow_le_pow_right (by norm_num) (by omega)
          rw [if_pos ⟨by omega, hbit⟩, hor,
            Nat.mod_eq_of_lt (by omega : acc + (v % 128).toNat * 2 ^ s < 2 ^ 64)]
          have hmask : 2 ^ 64 - 2 ^ (s + 7) = (2 ^ (57 - s) - 1) <<< (s + 7) := by
            rw [Nat.shiftLeft_eq, Nat.sub_mul, one_mul, ← pow_add,
              show 57 - s + (s + 7) = 64 by omega]
          rw [hmask, or_disjoint (s + 7) _ _ hlt2]
          -- arithmetic: identify with the two's complement pattern of v
          have he1 : (2 : Nat) ^ (57 - s) * 2 ^ (s + 7) = 2 ^ 64 := by
            rw [← pow_add]; congr 1; omega
          have he2 : (2 : Nat) ^ s * 2 ^ (64 - s) = 2 ^ 64 := by
            rw [← pow_add]; congr 1; omega
          have hm64 : v % (2 : Int) ^ (64 - s) = v + 2 ^ (64 - s) := by
            have h8 : (2 : Int) ^ 8 ≤ 2 ^ (64 - s) :=
              pow_le_pow_right₀ (by norm_num) (by omega)
            have hrw : (v + (2 : Int) ^ (64 - s)) % (2 : Int) ^ (64 - s) =
                v % (2 : Int) ^ (64 - s) := by
              conv_lhs => rw [show v + (2 : Int) ^ (64 - s) =
                v + (2 : Int) ^ (64 - s) * 1 by ring]
              rw [Int.add_mul_emod_self_left]
            rw [← hrw]
            apply Int.emod_eq_of_lt (by norm_num at h8 ⊢; omega) (by omega)
          have hcastpow := pow_cast_int (64 - s)
          have htn : (v % (2 : Int) ^ (64 - s)).toNat =
              2 ^ (64 - s) + (v % 128).toNat - 128 := by
            rw [hm64]; omega
          rw [htn, Nat.sub_mul, one_mul, Nat.mul_sub, Nat.mul_add, he1, he2]
          have hcomm1 : (2 : Nat) ^ s * (v % 128).toNat =
              (v % 128).toNat * 2 ^ s := mul_comm _ _
          have hcomm2 : (2 : Nat) ^ s * 128 = 2 ^ (s + 7) := by
            rw [hP7, mul_comm]
          rw [hcomm1, hcomm2]
          have hB : (2 : Nat) ^ (s + 7) ≤ 2 ^ 64 :=
            Nat.pow_le_pow_right (by norm_num) (by omega)
          have harith : acc + (v % 128).toNat * 2 ^ s + (2 ^ 64 - 2 ^ (s + 7)) =
              acc + (2 ^ 64 + (v % 128).toNat * 2 ^ s - 2 ^ (s + 7)) := by
            omega
          rw [harith]
        · -- the tenth byte: shift is 63, v = -1, byte is 127
          subst hs631
          have hv1 : v = -1 := by norm_num at hlo hhi; omega
          have hr127 : (v % 128).toNat = 127 := by rw [hv1]; rfl
          rw [if_neg (by omega), hor, hr127]
          have hmod : (acc + 127 * 2 ^ 63) % 2 ^ 64 = acc + 2 ^ 63 := by omega
          rw [hmod, hv1]
          norm_num
    · -- a continuation byte
      have hs56 : s ≤ 56 := by
        rcases (by omega : s ≤ 56 ∨ s = 63) with h | h
        · exact h
        · exfalso
          subst h
          norm_num at hlo hhi
          have : v = 0 ∨ v = -1 := by omega
          rcases this with rfl | rfl
          · exact hterm (Or.inl ⟨by norm_num, by decide⟩)
          · exact hterm (Or.inr ⟨by decide, by decide⟩)
      rw [serIntegerAux, if_neg hterm, List.cons_append,
        or_128 hrlt, deserIntegerLoop_cons _ _ _ _ (by omega)]
      have h128c : ((v % 128).toNat + 128) &&& 128 ≠ 0 := by
        rw [and_128_eq]; omega
      rw [if_neg h128c]
      have h127c : ((v % 128).toNat + 128) &&& 127 = (v % 128).toNat := by
        rw [show (127 : Nat) = 2 ^ 7 - 1 from rfl,
          Nat.and_pow_two_sub_one_eq_mod]
        omega
      rw [h127c, hor]
      have hP7 : (2 : Nat) ^ (s + 7) = 128 * 2 ^ s := by
        rw [pow_add, mul_comm]; norm_num
      have hmul : (v % 128).toNat * 2 ^ s ≤ 127 * 2 ^ s :=
        Nat.mul_le_mul_right _ (by omega)
      have hacc2 : acc + (v % 128).toNat * 2 ^ s < 2 ^ (s + 7) := by
        rw [hP7]; omega
      have hle63 : (2 : Nat) ^ (s + 7) ≤ 2 ^ 63 :=
        Nat.pow_le_pow_right (by norm_num) (by omega)
      rw [Nat.mod_eq_of_lt (by omega : acc + (v % 128).toNat * 2 ^ s < 2 ^ 64)]
      -- invariant bounds for the shifted value
      have hpsplit : (2 : Int) ^ (63 - s) = 2 ^ (56 - s) * 2 ^ 7 := by
        rw [← pow_add]; congr 1; omega
      have hlo2 : -((2 : Int) ^ (63 - (s + 7))) ≤ v / 128 := by
        rw [show 63 - (s + 7) = 56 - s by omega]
        norm_num at hpsplit
        omega
      have hhi2 : v / 128 < (2 : Int) ^ (63 - (s + 7)) := by
        rw [show 63 - (s + 7) = 56 - s by omega]
        norm_num at hpsplit
        omega
      have hrec := ih (v / 128) (s + 7)
        (acc + (v % 128).toNat * 2 ^ s) rest (by omega) (by omega) (by omega)
        hlo2 hhi2 hacc2
      have htgt : 64 - (s + 7) = 57 - s := by omega
      rw [htgt] at hrec
      rw [hrec]
      -- identify the accumulated patterns
      have hM : (0 : Nat) < 2 ^ (57 - s) := Nat.pos_pow_of_pos _ (by norm_num)
      have hsplit := emod_split v (2 ^ (57 - s)) hM
      have hcast57 := pow_cast_int (57 - s)
      rw [hcast57] at hsplit
      have h64s : (2 : Int) ^ (64 - s) = 128 * (2 : Int) ^ (57 - s) := by
        rw [show 64 - s = 7 + (57 - s) by omega, pow_add]
        norm_num
      have hw0 : (0 : Int) ≤ (v / 128) % ((2 : Int) ^ (57 - s)) :=
        Int.emod_nonneg _ (by positivity)
      have htn : (v % (2 : Int) ^ (64 - s)).toNat =
          (v % 128).toNat +
            128 * ((v / 128) % ((2 : Int) ^ (57 - s))).toNat := by
        rw [h64s, hsplit]; omega
      rw [htn, Nat.mul_add]
      have hfold : (2 : Nat) ^ s *
          (128 * ((v / 128) % ((2 : Int) ^ (57 - s))).toNat) =
          2 ^ (s + 7) * ((v / 128) % ((2 : Int) ^ (57 - s))).toNat := by
        rw [hP7]; ring
      rw [hfold, mul_comm ((2 : Nat) ^ s) ((v % 128).toNat)]
      rw [Nat.add_assoc]

/-- Interpreting the full 64-bit pattern of an in-range `v` recovers `v`. -/
theorem toInt64_emod (v : Int) (h1 : -(2 ^ 63) ≤ v) (h2 : v < 2 ^ 63) :
    toInt64 ((v % (2 : Int) ^ 64).toNat) = v := by
  unfold toInt64
  have hm : v % (2 : Int) ^ 64 = if 0 ≤ v then v else v + 2 ^ 64 := by
    split
    · apply Int.emod_eq_of_lt (by omega)
      norm_num at h2 ⊢; omega
    · have hrw : (v + (2 : Int) ^ 64) % (2 : Int) ^ 64 = v % (2 : Int) ^ 64 := by
        conv_lhs => rw [show v + (2 : Int) ^ 64 = v + (2 : Int) ^ 64 * 1 by ring]
        rw [Int.add_mul_emod_self_left]
      rw [← hrw]
      apply Int.emod_eq_of_lt <;> norm_num at h1 ⊢ <;> omega
  rw [hm]
  split <;> rename_i hv <;> norm_num at h1 h2 ⊢ <;> split <;> omega

/-! ## Claim C4 -/

/-- Claim C4: for every signed 64-bit integer `v`, decoding the output of
the serializer's variable-length integer encoding with the
deserializer's decoder yields `v` again, and the decoder consumes
exactly the bytes the encoder produced (any trailing bytes are left
untouched). -/
theorem serInteger_roundtrip (v : Int) (h1 : -(2 ^ 63) ≤ v)
    (h2 : v < 2 ^ 63) (rest : List Nat) :
    deserInteger (serInteger v ++ rest) = .ok (v, rest) := by
  have hmain := deserIntegerLoop_serInteger 10 v 0 0 rest rfl
    (by omega) (by omega) (by norm_num at h1 ⊢; omega)
    (by norm_num at h2 ⊢; omega) (by norm_num)
  rw [show serIntegerAux 10 v = serInteger v from rfl] at hmain
  unfold deserInteger
  norm_num at hmain
  rw [hmain]
  have hti := toInt64_emod v h1 h2
  norm_num at hti
  simp [hti]

/-- Witness for C4 at a concrete negative input with trailing bytes. -/
theorem serInteger_roundtrip_witness :
    deserInteger (serInteger (-1000) ++ [9, 9]) = .ok (-1000, [9, 9]) :=
  serInteger_roundtrip (-1000) (by norm_num) (by norm_num) [9, 9]

/-! ## Claims C2 and C3 -/

/-- Claim C2: the truthiness predicate `CrocValue.isFalse` holds for
exactly the five values `null`, `false`, integer `0`, float `0.0`
(pattern `0`) and float `-0.0` (pattern `2 ^ 63`); every other value —
including every NaN pattern, the empty string and every reference
object — is truthy. -/
theorem isFalse_iff_falsy (v : CrocValue) :
    CrocValue.isFalse v = true ↔
      v = .vnull ∨ v = .vbool false ∨ v = .vint 0 ∨
      v = .vfloat 0 ∨ v = .vfloat (2 ^ 63) := by
  cases v <;>
    simp [CrocValue.isFalse, floatEq, floatIsZero, floatIsNaN]
  case vfloat bits =>
    rintro (rfl | rfl) <;> norm_num

/-- Claim C3: `CrocValue.opEquals` returns `false` whenever the two type
tags differ (in particular an `int` is never equal to a `float`); on
same-type value types it compares payloads (`null` always equal,
`bool`/`int` by equality of the stored payload, `float` by host `==` on
the stored payload); and on reference types it returns `true` exactly
when both sides are the identical object. -/
theorem opEquals_spec :
    (∀ a b : CrocValue, a.typeOf ≠ b.typeOf → a.opEquals b = false) ∧
    (∀ (i : Int) (f : Nat),
      (CrocValue.vint i).opEquals (.vfloat f) = false ∧
      (CrocValue.vfloat f).opEquals (.vint i) = false) ∧
    (CrocValue.vnull.opEquals .vnull = true) ∧
    (∀ x y : Bool, (CrocValue.vbool x).opEquals (.vbool y) = (x == y)) ∧
    (∀ x y : Int, (CrocValue.vint x).opEquals (.vint y) = (x == y)) ∧
    (∀ x y : Nat, (CrocValue.vfloat x).opEquals (.vfloat y) = floatEq x y) ∧
    (∀ a b : CrocValue, a.isRefType = true →
      (a.opEquals b = true ↔ a = b)) := by
  refine ⟨?_, ?_, ?_, ?_, ?_, ?_, ?_⟩
  · intro a b h
    simp [CrocValue.opEquals, h]
  · intro i f
    constructor <;> simp [CrocValue.opEquals, CrocValue.typeOf]
  · rfl
  · intro x y; simp [CrocValue.opEquals, CrocValue.typeOf]
  · intro x y; simp [CrocValue.opEquals, CrocValue.typeOf]
  · intro x y; simp [CrocValue.opEquals, CrocValue.typeOf]
  · intro a b h
    constructor
    · intro he
      by_cases ht : a.typeOf = b.typeOf
      · cases a <;> cases b <;>
          simp_all [CrocValue.opEquals, CrocValue.typeOf, CrocValue.isRefType,
            CrocType.tag]
      · simp [CrocValue.opEquals, ht] at he
    · rintro rfl
      cases a <;>
        simp_all [CrocValue.opEquals, CrocValue.typeOf, CrocValue.isRefType,
          CrocType.tag, floatEq]

/-- Witness for C3 at concrete inputs. -/
theorem opEquals_spec_witness :
    (CrocValue.vint 0).opEquals (.vbool false) = false ∧
    ((CrocValue.vtable 3).opEquals (.vtable 3) = true ↔
      CrocValue.vtable 3 = .vtable 3) :=
  ⟨opEquals_spec.1 (.vint 0) (.vbool false) (by decide),
   opEquals_spec.2.2.2.2.2.2 (.vtable 3) (.vtable 3) (by decide)⟩

/-! ## The object heap

Reference objects live in per-type heaps indexed by `Nat` identity.  The
fields kept are the ones the serialization module reads.  The native
predicates `object.isFrozen`, `object.isFinalizable`, `ownData`,
`isNative`, `isCacheable`, `isCached` and `instSize` are modelled as
stored fields. -/

structure TableObj where
  entries : List (CrocValue × CrocValue)
deriving DecidableEq, Repr

structure ArrayObj where
  elems : List CrocValue
deriving DecidableEq, Repr

structure MemblockObj where
  ownData : Bool
  data : List Nat
deriving DecidableEq, Repr

structure NamespaceObj where
  name : List Nat
  sup : Option CrocValue
  entries : List (List Nat × CrocValue)
deriving DecidableEq, Repr

structure FunctionObj where
  isNative : Bool
  name : List Nat
  payload : Nat
deriving DecidableEq, Repr

structure FuncDefObj where
  cacheable : Bool
  cached : Bool
  payload : Nat
deriving DecidableEq, Repr

structure ClassObj where
  name : List Nat
  frozen : Bool
  finalizable : Bool
  payload : Nat
deriving DecidableEq, Repr

/-- The `opSerialize` member of an instance: absent, a bool field, a
function (whose effect is modelled by the list of values it passes to
the serialize callback), or a value of some other type. -/
inductive OpSer where
  | absent
  | obool (b : Bool)
  | ofunc (emits : List CrocValue)
  | oother
deriving DecidableEq, Repr

structure InstanceObj where
  cls : CrocValue
  size : Nat
  finalizable : Bool
  opSer : OpSer
  payload : Nat
deriving DecidableEq, Repr

structure WeakrefObj where
  referent : Option CrocValue
deriving DecidableEq, Repr

structure Heap where
  tables : List TableObj
  arrays : List ArrayObj
  memblocks : List MemblockObj
  namespaces : List NamespaceObj
  functions : List FunctionObj
  funcdefs : List FuncDefObj
  classes : List ClassObj
  instances : List InstanceObj
  weakrefs : List WeakrefObj
deriving DecidableEq, Repr

def emptyHeap : Heap := ⟨[], [], [], [], [], [], [], [], []⟩

/-! ## Serialization tags

`_serializationtmp.TypeTags` is built natively and its concrete byte
values are not in the sources; the model assigns the enum order of
`CrocValue.Type` to the value types and the next codes to the `backref`,
`transient` and `upval` pseudo-tags.  Only distinctness and the fixed
closed set matter to any claim. -/

def tagOf (t : CrocType) : Nat := t.tag

def tagBackref : Nat := 16
def tagTransient : Nat := 17
def tagUpval : Nat := 18

/-! ## Serializer (class Serializer) -/

/-- Croc table lookup (`t[v]`), keyed by `CrocValue.opEquals`; a stored
`null` is the same as an absent key (tables never hold null values). -/
def tableGet : List (CrocValue × CrocValue) → CrocValue → Option CrocValue
  | [], _ => none
  | (k, r) :: rest, v =>
    if k.opEquals v then (if r = .vnull then none else some r)
    else tableGet rest v

/-- Lookup in the serializer's `_objTable` (a table keyed by the values
already written). -/
def objLookup : List (CrocValue × Nat) → CrocValue → Option Nat
  | [], _ => none
  | (k, i) :: rest, v => if k.opEquals v then some i else objLookup rest v

/-- Serializer state: bytes written so far, the `_objTable` map from
already-written objects to their back-reference IDs, and `_objIndex`,
the next ID to hand out. -/
structure SerState where
  out : List Nat
  objTable : List (CrocValue × Nat)
  objIndex : Nat
deriving DecidableEq, Repr

def emit (st : SerState) (bs : List Nat) : SerState :=
  ⟨st.out ++ bs, st.objTable, st.objIndex⟩

/-- `Serializer._alreadyWritten`: if `v` has an ID, emit a `backref` tag
and the ID and answer `true`; otherwise record `v` under the next
sequential ID and answer `false` (the caller then writes the body). -/
def alreadyWritten (st : SerState) (v : CrocValue) : Bool × SerState :=
  match objLookup st.objTable v with
  | some idx => (true, emit st (tagBackref :: serInteger idx))
  | none => (false, ⟨st.out, st.objTable ++ [(v, st.objIndex)], st.objIndex + 1⟩)

/-- Little-endian bytes of a machine number (`writeFloat64` writes the 8
bytes of the double's pattern). -/
def bytesLE : Nat → Nat → List Nat
  | 0, _ => []
  | w + 1, v => v % 256 :: bytesLE w (v / 256)

def pairsFlatten : List (CrocValue × CrocValue) → List CrocValue
  | [] => []
  | (k, v) :: rest => k :: v :: pairsFlatten rest

def nsFlatten : List (List Nat × CrocValue) → List CrocValue
  | [] => []
  | (k, v) :: rest => .vstring k :: v :: nsFlatten rest

/-! The serializer recursion.  `fuel` decreases on every recursive call;
the original code has no such bound and instead loops forever on
(documented-as-invalid) cyclic transient tables, so `fuelError` models
non-termination, never a Croc-level error.

The bodies of `_nativeSerializeFunction`, `_nativeSerializeFuncdef`,
`_nativeSerializeClass` and `_nativeSerializeInstance` are native and not
in the sources.  Modelled from the spec: each writes the object's
remaining data; the model writes a single numeric payload (plus the
`cacheable` flag for funcdefs, which `deserializeModule` later checks). -/

mutual

/-- `Serializer._serialize` and the `_serialize<Type>` methods. -/
def serValue (h : Heap) (trans : List (CrocValue × CrocValue))
    (fuel : Nat) (st : SerState) (v : CrocValue) : Except Err SerState :=
  match fuel with
  | 0 => .error .fuelError
  | fuel + 1 =>
    match tableGet trans v with
    | some repl => serValue h trans fuel (emit st [tagTransient]) repl
    | none =>
      match v with
      | .vnull => .ok (emit st [tagOf .nullT])
      | .vbool b => .ok (emit st [tagOf .boolT, if b then 1 else 0])
      | .vint i => .ok (emit st (tagOf .intT :: serInteger i))
      | .vfloat bits => .ok (emit st (tagOf .floatT :: bytesLE 8 bits))
      | .vnativeobj _ => .error .typeError
      | .vstring s =>
        match alreadyWritten st v with
        | (true, st1) => .ok st1
        | (false, st1) =>
          .ok (emit st1 (tagOf .stringT :: serInteger s.length ++ s))
      | .vweakref id =>
        match h.weakrefs[id]? with
        | none => .error .heapError
        | some w =>
          let st1 := emit st [tagOf .weakrefT]
          match w.referent with
          | none => .ok (emit st1 [0])
          | some obj => serValue h trans fuel (emit st1 [1]) obj
      | .vtable id =>
        match alreadyWritten st v with
        | (true, st1) => .ok st1
        | (false, st1) =>
          match h.tables[id]? with
          | none => .error .heapError
          | some t =>
            let st2 := emit st1 (tagOf .tableT :: serInteger t.entries.length)
            serValues h trans fuel st2 (pairsFlatten t.entries)
      | .vnamespace id =>
        match alreadyWritten st v with
        | (true, st1) => .ok st1
        | (false, st1) =>
          match h.namespaces[id]? with
          | none => .error .heapError
          | some ns => do
            let st2 ← serValue h trans fuel (emit st1 [tagOf .namespaceT])
              (.vstring ns.name)
            let st3 ←
              match ns.sup with
              | none => .ok (emit st2 [0])
              | some sup => serValue h trans fuel (emit st2 [1]) sup
            serValues h trans fuel
              (emit st3 (serInteger ns.entries.length)) (nsFlatten ns.entries)
      | .varray id =>
        match alreadyWritten st v with
        | (true, st1) => .ok st1
        | (false, st1) =>
          match h.arrays[id]? with
          | none => .error .heapError
          | some a =>
            let st2 := emit st1 (tagOf .arrayT :: serInteger a.elems.length)
            serValues h trans fuel st2 a.elems
      | .vmemblock id =>
        match alreadyWritten st v with
        | (true, st1) => .ok st1
        | (false, st1) =>
          match h.memblocks[id]? with
          | none => .error .heapError
          | some mb =>
            if !mb.ownData then .error .valueError
            else .ok (emit st1
              (tagOf .memblockT :: serInteger mb.data.length ++ mb.data))
      | .vfunction id =>
        match alreadyWritten st v with
        | (true, st1) => .ok st1
        | (false, st1) =>
          match h.functions[id]? with
          | none => .error .heapError
          | some f =>
            if f.isNative then .error .valueError
            else .ok (emit st1 (tagOf .functionT :: serInteger f.payload))
      | .vfuncdef id =>
        match alreadyWritten st v with
        | (true, st1) => .ok st1
        | (false, st1) =>
          match h.funcdefs[id]? with
          | none => .error .heapError
          | some fd =>
            .ok (emit st1 (tagOf .funcdefT ::
              (if fd.cacheable then 1 else 0) :: serInteger fd.payload))
      | .vclass id =>
        match alreadyWritten st v with
        | (true, st1) => .ok st1
        | (false, st1) =>
          match h.classes[id]? with
          | none => .error .heapError
          | some c => do
            let st2 ← serValue h trans fuel (emit st1 [tagOf .classT])
              (.vstring c.name)
            if c.frozen && c.finalizable then .error .valueError
            else .ok (emit st2 (serInteger c.payload ++
              [if c.frozen then 1 else 0]))
      | .vinstance id =>
        match alreadyWritten st v with
        | (true, st1) => .ok st1
        | (false, st1) =>
          match h.instances[id]? with
          | none => .error .heapError
          | some io => do
            let st2 ← serValue h trans fuel
              (emit st1 (tagOf .instanceT :: serInteger io.size)) io.cls
            match io.opSer with
            | .ofunc emits => serValues h trans fuel (emit st2 [1]) emits
            | .obool false => .error .valueError
            | .oother => .error .typeError
            | _ =>
              if io.finalizable then .error .valueError
              else .ok (emit st2 (0 :: serInteger io.payload))
      | .vthread _ => .error .typeError

/-- Serializing a sequence of values in order (the foreach loops in the
table/namespace/array bodies and the values an `opSerialize` hook passes
to the serialize callback). -/
def serValues (h : Heap) (trans : List (CrocValue × CrocValue))
    (fuel : Nat) (st : SerState) (l : List CrocValue) : Except Err SerState :=
  match l with
  | [] => .ok st
  | x :: xs =>
    match fuel with
    | 0 => .error .fuelError
    | fuel + 1 => do
      let st2 ← serValue h trans fuel st x
      serValues h trans fuel st2 xs

end

/-! ## Signature and writeGraph -/

/-- The platform constants recorded in the serialization signature:
`_serializationtmp.Endianness` (1 big-endian, 0 little-endian),
`_serializationtmp.PlatformBits` (native word size, like 32 or 64),
`math.intSize` and `math.floatSize` (both 8 in a stock build). -/
structure Platform where
  endian : Nat
  bits : Nat
  intSize : Nat
  floatSize : Nat
deriving DecidableEq, Repr

/-- `SerialVersion`, bumped any time the serialization format changes. -/
def SerialVersion : Nat := 2

/-- The byte layout of a signature recording the five values
`(endianness, platform bits, int size, float size, serial version)`:
one `uint8` followed by four variable-length integers. -/
def sigBytes (e b i f ver : Nat) : List Nat :=
  e % 256 :: (serInteger b ++ (serInteger i ++ (serInteger f ++ serInteger ver)))

/-- `Serializer._writeSignature`: the writing platform's values and the
current `SerialVersion`. -/
def writeSignature (p : Platform) : List Nat :=
  sigBytes p.endian p.bits p.intSize p.floatSize SerialVersion

/-- The entries of the transients table value (the model supports a
table; an instance implementing `opIndex` runs arbitrary code and is not
modelled). -/
def transEntries (h : Heap) (tv : CrocValue) : List (CrocValue × CrocValue) :=
  match tv with
  | .vtable id =>
    match h.tables[id]? with
    | some t => t.entries
    | none => []
  | _ => []

/-- `Serializer.writeGraph`: refuse to serialize the transients table
itself (`val is transients` is object identity), reset the object table,
write the signature, then the graph. -/
def writeGraph (h : Heap) (p : Platform) (root transVal : CrocValue)
    (fuel : Nat) : Except Err (List Nat) :=
  if root = transVal then .error .valueError
  else do
    let st ← serValue h (transEntries h transVal) fuel
      ⟨writeSignature p, [], 0⟩ root
    .ok st.out

/-- `serializeGraph(val, transients, output)`. -/
def serializeGraph (h : Heap) (p : Platform) (v transVal : CrocValue)
    (fuel : Nat) : Except Err (List Nat) :=
  writeGraph h p v transVal fuel

/-! ## Deserializer (class Deserializer) -/

/-- Deserializer state: remaining input, `_objTable` (the list of
already-registered objects, indexed by back-reference ID) and the heap
of objects built so far. -/
structure DeserState where
  input : List Nat
  objTable : List CrocValue
  heap : Heap
deriving DecidableEq, Repr

/-- `Deserializer._uint8` (a `readExact` of one byte). -/
def readByte (d : DeserState) : Except Err (Nat × DeserState) :=
  match d.input with
  | [] => .error .eofError
  | b :: rest => .ok (b, ⟨rest, d.objTable, d.heap⟩)

/-- `readExact` of `n` bytes. -/
def readBytes (n : Nat) (d : DeserState) : Except Err (List Nat × DeserState) :=
  if n ≤ d.input.length then
    .ok (d.input.take n, ⟨d.input.drop n, d.objTable, d.heap⟩)
  else .error .eofError

/-- `Deserializer._integer` acting on the state. -/
def dsInteger (d : DeserState) : Except Err (Int × DeserState) :=
  match deserInteger d.input with
  | .ok (v, rest) => .ok (v, ⟨rest, d.objTable, d.heap⟩)
  | .error e => .error e

/-- `Deserializer._length`: a decoded integer that is negative or above
`0xFFFFFFFF` is malformed data and raises `ValueError`. -/
def dsLength (d : DeserState) : Except Err (Nat × DeserState) := do
  let (v, d2) ← dsInteger d
  if v < 0 ∨ 0xFFFFFFFF < v then .error .valueError
  else .ok (v.toNat, d2)

/-- `Deserializer._addObject`: append to the object table. -/
def addObject (d : DeserState) (v : CrocValue) : DeserState :=
  ⟨d.input, d.objTable ++ [v], d.heap⟩

/-- `readFloat64`: assemble the 8 little-endian bytes of the pattern. -/
def leToNat : List Nat → Nat
  | [] => 0
  | b :: rest => b % 256 + 256 * leToNat rest

/-- Removal from a table (`t[k] = null`). -/
def tableRemove : List (CrocValue × CrocValue) → CrocValue →
    List (CrocValue × CrocValue)
  | [], _ => []
  | (k0, v0) :: rest, k =>
    if k0.opEquals k then rest else (k0, v0) :: tableRemove rest k

/-- Update-or-append for a table assignment with a non-null value. -/
def tableUpdate : List (CrocValue × CrocValue) → CrocValue → CrocValue →
    List (CrocValue × CrocValue)
  | [], k, v => [(k, v)]
  | (k0, v0) :: rest, k, v =>
    if k0.opEquals k then (k0, v) :: rest
    else (k0, v0) :: tableUpdate rest k v

/-- Croc table index-assignment `t[k] = v`.  Modelled from the spec:
`null` is never a key and NaN keys are rejected; assigning `null`
removes. -/
def tableSet (entries : List (CrocValue × CrocValue)) (k v : CrocValue) :
    Except Err (List (CrocValue × CrocValue)) :=
  if k = .vnull then .error .typeError
  else if (match k with | .vfloat f => floatIsNaN f | _ => false) then
    .error .valueError
  else if v = .vnull then .ok (tableRemove entries k)
  else .ok (tableUpdate entries k v)

/-! The deserializer recursion.  `_deserialize` dispatches on the tag
byte through `DeserializeMethods`; a tag with no method is malformed data
(`ValueError`).  The impls for `string`, `table`, `array`, `memblock`,
`backref` and `transient` (and the scalar types) are in the sources and
transcribed exactly — in particular `_deserializeMemblockImpl` does *not*
call `_addObject`, unlike every other reference-object impl.

`_deserializeNamespaceImpl`, `_deserializeFunctionImpl`,
`_deserializeFuncdefImpl`, `_deserializeClassImpl`,
`_deserializeInstanceImpl` and `_deserializeUpvalImpl` are native and
not in the sources.  Modelled from the spec: each reads back what the
(modelled) native serializer wrote, registering the object in the object
table, with shells registered before contents so back-edges resolve; an
instance flagged as custom-serialized would run its `opDeserialize`
hook, which is arbitrary user code and is modelled as a no-op; the
`upval` impl is never produced by the serializer and is modelled as
rejecting. -/

mutual

/-- `Deserializer._deserialize` plus the per-tag impl methods. -/
def deserValue (trans : List (CrocValue × CrocValue)) (fuel : Nat)
    (d : DeserState) : Except Err (CrocValue × DeserState) :=
  match fuel with
  | 0 => .error .fuelError
  | fuel + 1 => do
    let (t, d1) ← readByte d
    if t = tagOf .nullT then .ok (.vnull, d1)
    else if t = tagOf .boolT then do
      let (b, d2) ← readByte d1
      .ok (.vbool (b ≠ 0), d2)
    else if t = tagOf .intT then do
      let (i, d2) ← dsInteger d1
      .ok (.vint i, d2)
    else if t = tagOf .floatT then do
      let (bs, d2) ← readBytes 8 d1
      .ok (.vfloat (leToNat bs), d2)
    else if t = tagOf .weakrefT then do
      let (b, d2) ← readByte d1
      if b ≠ 0 then do
        let (obj, d3) ← deserValue trans fuel d2
        let id := d3.heap.weakrefs.length
        .ok (.vweakref id,
          ⟨d3.input, d3.objTable,
            { d3.heap with weakrefs := d3.heap.weakrefs ++ [⟨some obj⟩] }⟩)
      else
        let id := d2.heap.weakrefs.length
        .ok (.vweakref id,
          ⟨d2.input, d2.objTable,
            { d2.heap with weakrefs := d2.heap.weakrefs ++ [⟨none⟩] }⟩)
    else if t = tagOf .stringT then do
      let (n, d2) ← dsLength d1
      let (bs, d3) ← readBytes n d2
      .ok (.vstring bs, addObject d3 (.vstring bs))
    else if t = tagOf .tableT then do
      let (n, d2) ← dsLength d1
      let id := d2.heap.tables.length
      let d3 := addObject
        ⟨d2.input, d2.objTable,
          { d2.heap with tables := d2.heap.tables ++ [⟨[]⟩] }⟩ (.vtable id)
      let d4 ← deserTablePairs trans fuel n id d3
      .ok (.vtable id, d4)
    else if t = tagOf .arrayT then do
      let id := d1.heap.arrays.length
      let d2 := addObject
        ⟨d1.input, d1.objTable,
          { d1.heap with arrays := d1.heap.arrays ++ [⟨[]⟩] }⟩ (.varray id)
      let (n, d3) ← dsLength d2
      let d4 : DeserState :=
        ⟨d3.input, d3.objTable,
          { d3.heap with arrays :=
              d3.heap.arrays.set id ⟨List.replicate n .vnull⟩ }⟩
      let d5 ← deserArrayElems trans fuel n 0 id d4
      .ok (.varray id, d5)
    else if t = tagOf .memblockT then do
      let (n, d2) ← dsLength d1
      let (bs, d3) ← readBytes n d2
      let id := d3.heap.memblocks.length
      .ok (.vmemblock id,
        ⟨d3.input, d3.objTable,
          { d3.heap with memblocks := d3.heap.memblocks ++ [⟨true, bs⟩] }⟩)
    else if t = tagBackref then do
      let (i, d2) ← dsInteger d1
      if i < 0 then .error .valueError
      else
        match d2.objTable[i.toNat]? with
        | some x => .ok (x, d2)
        | none => .error .valueError
    else if t = tagTransient then do
      let (key, d2) ← deserValue trans fuel d1
      match tableGet trans key with
      | some r => .ok (r, d2)
      | none => .error .valueError
    else if t = tagOf .namespaceT then do
      let id := d1.heap.namespaces.length
      let d2 := addObject
        ⟨d1.input, d1.objTable,
          { d1.heap with namespaces := d1.heap.namespaces ++ [⟨[], none, []⟩] }⟩
        (.vnamespace id)
      let (nameV, d3) ← deserValue trans fuel d2
      match nameV with
      | .vstring nm => do
        let (b, d4) ← readByte d3
        let (sup, d5) ←
          if b ≠ 0 then do
            let (sv, d5) ← deserValue trans fuel d4
            pure ((some sv : Option CrocValue), d5)
          else pure ((none : Option CrocValue), d4)
        let d6 : DeserState :=
          ⟨d5.input, d5.objTable,
            { d5.heap with namespaces :=
                d5.heap.namespaces.set id ⟨nm, sup, []⟩ }⟩
        let (n, d7) ← dsLength d6
        let d8 ← deserNsPairs trans fuel n id d7
        .ok (.vnamespace id, d8)
      | _ => .error .valueError
    else if t = tagOf .functionT then do
      let (pl, d2) ← dsInteger d1
      let id := d2.heap.functions.length
      let d3 := addObject
        ⟨d2.input, d2.objTable,
          { d2.heap with functions :=
              d2.heap.functions ++ [⟨false, [], pl.toNat⟩] }⟩ (.vfunction id)
      .ok (.vfunction id, d3)
    else if t = tagOf .funcdefT then do
      let (cb, d2) ← readByte d1
      let (pl, d3) ← dsInteger d2
      let id := d3.heap.funcdefs.length
      let d4 := addObject
        ⟨d3.input, d3.objTable,
          { d3.heap with funcdefs :=
              d3.heap.funcdefs ++ [⟨cb ≠ 0, false, pl.toNat⟩] }⟩ (.vfuncdef id)
      .ok (.vfuncdef id, d4)
    else if t = tagOf .classT then do
      let (nameV, d2) ← deserValue trans fuel d1
      match nameV with
      | .vstring nm => do
        let (pl, d3) ← dsInteger d2
        let (fz, d4) ← readByte d3
        let id := d4.heap.classes.length
        let d5 := addObject
          ⟨d4.input, d4.objTable,
            { d4.heap with classes :=
                d4.heap.classes ++ [⟨nm, fz ≠ 0, false, pl.toNat⟩] }⟩
          (.vclass id)
        .ok (.vclass id, d5)
      | _ => .error .valueError
    else if t = tagOf .instanceT then do
      let (sz, d2) ← dsInteger d1
      let (clsV, d3) ← deserValue trans fuel d2
      let (flag, d4) ← readByte d3
      if flag ≠ 0 then
        let id := d4.heap.instances.length
        let d5 := addObject
          ⟨d4.input, d4.objTable,
            { d4.heap with instances :=
                d4.heap.instances ++ [⟨clsV, sz.toNat, false, .absent, 0⟩] }⟩
          (.vinstance id)
        .ok (.vinstance id, d5)
      else do
        let (pl, d5) ← dsInteger d4
        let id := d5.heap.instances.length
        let d6 := addObject
          ⟨d5.input, d5.objTable,
            { d5.heap with instances :=
                d5.heap.instances ++ [⟨clsV, sz.toNat, false, .absent, pl.toNat⟩] }⟩
          (.vinstance id)
        .ok (.vinstance id, d6)
    else .error .valueError
termination_by structural fuel

/-- The `for(i; 0 .. len)` loop of `_deserializeTableImpl`:
`ret[key] = value` for each deserialized pair. -/
def deserTablePairs (trans : List (CrocValue × CrocValue)) (fuel : Nat)
    (n : Nat) (id : Nat) (d : DeserState) : Except Err DeserState :=
  match n with
  | 0 => .ok d
  | n + 1 =>
    match fuel with
    | 0 => .error .fuelError
    | fuel + 1 => do
      let (k, d1) ← deserValue trans fuel d
      let (v, d2) ← deserValue trans fuel d1
      match d2.heap.tables[id]? with
      | none => .error .heapError
      | some t => do
        let es ← tableSet t.entries k v
        deserTablePairs trans fuel n id
          ⟨d2.input, d2.objTable,
            { d2.heap with tables := d2.heap.tables.set id ⟨es⟩ }⟩
termination_by structural fuel

/-- The fill loop of `_deserializeArrayImpl`: `ret[i] = :_deserialize()`
for each index in order. -/
def deserArrayElems (trans : List (CrocValue × CrocValue)) (fuel : Nat)
    (n i : Nat) (id : Nat) (d : DeserState) : Except Err DeserState :=
  match n with
  | 0 => .ok d
  | n + 1 =>
    match fuel with
    | 0 => .error .fuelError
    | fuel + 1 => do
      let (v, d1) ← deserValue trans fuel d
      match d1.heap.arrays[id]? with
      | none => .error .heapError
      | some a =>
        deserArrayElems trans fuel n (i + 1) id
          ⟨d1.input, d1.objTable,
            { d1.heap with arrays := d1.heap.arrays.set id ⟨a.elems.set i v⟩ }⟩
termination_by structural fuel

/-- The entry loop of the (native, spec-modelled) namespace impl: each
entry is a string key and a value. -/
def deserNsPairs (trans : List (CrocValue × CrocValue)) (fuel : Nat)
    (n : Nat) (id : Nat) (d : DeserState) : Except Err DeserState :=
  match n with
  | 0 => .ok d
  | n + 1 =>
    match fuel with
    | 0 => .error .fuelError
    | fuel + 1 => do
      let (k, d1) ← deserValue trans fuel d
      match k with
      | .vstring nm => do
        let (v, d2) ← deserValue trans fuel d1
        match d2.heap.namespaces[id]? with
        | none => .error .heapError
        | some ns =>
          deserNsPairs trans fuel n id
            ⟨d2.input, d2.objTable,
              { d2.heap with namespaces :=
                  d2.heap.namespaces.set id ⟨ns.name, ns.sup, ns.entries ++ [(nm, v)]⟩ }⟩
      | _ => .error .valueError
termination_by structural fuel

end

/-- `Deserializer._readSignature`: each recorded value must equal the
reading platform's value; the version must equal `SerialVersion`. -/
def readSignature (p : Platform) (input : List Nat) :
    Except Err (List Nat) :=
  match input with
  | [] => .error .eofError
  | e :: r0 =>
    if e ≠ p.endian then .error .valueError
    else
      match deserInteger r0 with
      | .error er => .error er
      | .ok (bits, r1) =>
        if bits ≠ (p.bits : Int) then .error .valueError
        else
          match deserInteger r1 with
          | .error er => .error er
          | .ok (isz, r2) =>
            if isz ≠ (p.intSize : Int) then .error .valueError
            else
              match deserInteger r2 with
              | .error er => .error er
              | .ok (fsz, r3) =>
                if fsz ≠ (p.floatSize : Int) then .error .valueError
                else
                  match deserInteger r3 with
                  | .error er => .error er
                  | .ok (ver, r4) =>
                    if ver ≠ (SerialVersion : Int) then .error .valueError
                    else .ok r4

/-- `Deserializer.readGraph` is native and not in the sources.  Modelled
from the spec: it is the inverse of `writeGraph` — set the transients
table, start with an empty object table, check the signature, then read
the root value. -/
def readGraph (p : Platform) (trans : List (CrocValue × CrocValue))
    (input : List Nat) (fuel : Nat) : Except Err (CrocValue × DeserState) := do
  let rest ← readSignature p input
  deserValue trans fuel ⟨rest, [], emptyHeap⟩

/-- `deserializeGraph(transients, input)`. -/
def deserializeGraph (p : Platform) (trans : List (CrocValue × CrocValue))
    (input : List Nat) (fuel : Nat) : Except Err (CrocValue × DeserState) :=
  readGraph p trans input fuel

/-! ## Claims C1 and C6

The write side registers every memblock in `_objTable`
(`_serializeMemblock` starts with `_alreadyWritten`), but the read side's
`_deserializeMemblockImpl` never calls `_addObject`, so the two
back-reference tables go out of step as soon as a graph contains a
memblock.  Both claims are settled by evaluating the embedded code on
concrete graphs. -/

/-- A 64-bit little-endian platform with the stock 8-byte int and float. -/
def stdPlatform : Platform := ⟨0, 64, 8, 8⟩

/-- The C1 failing graph: the array `[mb, T, T]` where `mb` is an owned
(hence serializable) empty memblock and `T` an empty table serialized
twice (the second occurrence becomes a back-reference).  Table 1 is the
empty transients table. -/
def c1Heap : Heap :=
  ⟨[⟨[]⟩, ⟨[]⟩], [⟨[.vmemblock 0, .vtable 0, .vtable 0]⟩], [⟨true, []⟩],
    [], [], [], [], [], []⟩

/-- Claim C1 (code bug): the graph `[mb, T, T]` contains only
serializable values and an empty transients table, so by the claim (and
by `serializeGraph`'s own documentation, "the object graph will be
exactly as it was when it was serialized") deserializing its
serialization must reconstruct it; instead, serialization succeeds —
assigning back-reference IDs 0 (array), 1 (memblock), 2 (table), so the
repeated table is written as a back-reference to ID 2 — and
deserialization raises `ValueError` ("invalid back-reference"), because
the reader never registered the memblock and its object table holds only
two entries when the back-reference to ID 2 arrives. -/
theorem c1_roundtrip_fails :
    serializeGraph c1Heap stdPlatform (.varray 0) (.vtable 1) 100 =
      .ok [0, 192, 0, 8, 8, 2, 9, 3, 10, 0, 7, 0, 16, 2] ∧
    deserializeGraph stdPlatform []
      [0, 192, 0, 8, 8, 2, 9, 3, 10, 0, 7, 0, 16, 2] 100 =
      .error .valueError :=
  ⟨rfl, rfl⟩

/-- The C6 failing graph: the array `[mb, mb]` sharing one owned
memblock.  Table 0 is the empty transients table. -/
def c6Heap : Heap :=
  ⟨[⟨[]⟩], [⟨[.vmemblock 0, .vmemblock 0]⟩], [⟨true, []⟩],
    [], [], [], [], [], []⟩

/-- Claim C6 (code bug): serializing `[mb, mb]` assigns the memblock
back-reference ID 1 and emits `backref 1` for its second occurrence
(bytes `16, 1` at the end of the stream below), so on read, ID 1 should
resolve to the second previously-deserialized object — the memblock.
Instead the reader, which deserialized two objects (array, memblock) but
registered only the array, finds ID 1 out of range and raises
`ValueError`. -/
theorem c6_backref_not_ith_object :
    serializeGraph c6Heap stdPlatform (.varray 0) (.vtable 0) 100 =
      .ok [0, 192, 0, 8, 8, 2, 9, 2, 10, 0, 16, 1] ∧
    deserializeGraph stdPlatform []
      [0, 192, 0, 8, 8, 2, 9, 2, 10, 0, 16, 1] 100 =
      .error .valueError :=
  ⟨rfl, rfl⟩

/-! ## Claim C7 -/

/-- Claim C7, counterexample: on a 64-bit platform the native word size
`64` does not fit into one varint byte (bit `0x40` is set), so the
signature written by `_writeSignature` is 6 bytes long, not "exactly 5
bytes".  (It is 5 bytes on a 32-bit platform, which is the example the
library documentation describes.) -/
theorem signature_not_five_bytes :
    (writeSignature stdPlatform).length = 6 ∧
    (writeSignature stdPlatform).length ≠ 5 :=
  ⟨rfl, by decide⟩

/-- `_readSignature` on a signature recording the five values
`(e, b, i, f, ver)`: it succeeds, consuming exactly the signature bytes,
when every recorded value equals the reading platform's value (and the
version equals `SerialVersion`), and raises `ValueError` otherwise. -/
theorem readSignature_sigBytes (r : Platform) (e b i f ver : Nat)
    (rest : List Nat) (he : e < 256) (hb : b < 2 ^ 63) (hi : i < 2 ^ 63)
    (hf : f < 2 ^ 63) (hv : ver < 2 ^ 63) :
    readSignature r (sigBytes e b i f ver ++ rest) =
      if e = r.endian ∧ b = r.bits ∧ i = r.intSize ∧ f = r.floatSize ∧
         ver = SerialVersion
      then .ok rest else .error .valueError := by
  have hcast : ∀ n : Nat, n < 2 ^ 63 →
      -((2 : Int) ^ 63) ≤ (n : Int) ∧ (n : Int) < 2 ^ 63 := by
    intro n hn
    constructor
    · calc -((2 : Int) ^ 63) ≤ 0 := by norm_num
        _ ≤ (n : Int) := Int.natCast_nonneg n
    · exact_mod_cast hn
  have h1 := serInteger_roundtrip (b : Int) (hcast b hb).1 (hcast b hb).2
    (serInteger i ++ (serInteger f ++ (serInteger ver ++ rest)))
  have h2 := serInteger_roundtrip (i : Int) (hcast i hi).1 (hcast i hi).2
    (serInteger f ++ (serInteger ver ++ rest))
  have h3 := serInteger_roundtrip (f : Int) (hcast f hf).1 (hcast f hf).2
    (serInteger ver ++ rest)
  have h4 := serInteger_roundtrip (ver : Int) (hcast ver hv).1
    (hcast ver hv).2 rest
  have hshape : sigBytes e b i f ver ++ rest =
      e :: (serInteger b ++ (serInteger i ++ (serInteger f ++
        (serInteger ver ++ rest)))) := by
    simp [sigBytes, Nat.mod_eq_of_lt he]
  rw [hshape]
  simp only [readSignature, h1, h2, h3, h4]
  split_ifs <;> first
    | rfl
    | (exfalso; simp only [SerialVersion] at *; push_cast at *; omega)

/-- Claim C7, amended: the serializer begins every graph with a
signature recording the five values (endianness byte, then the
varint-encoded native word size, Croc int size, Croc float size and
serial-format version); it is exactly 5 bytes on a 32-bit platform with
8-byte ints and floats and 6 bytes on a 64-bit platform; deserialization
raises `ValueError` as soon as any recorded value differs from the
reading platform's values (or the recorded version differs from
`SerialVersion`), and accepts exactly the matching signature. -/
theorem signature_spec :
    ((writeSignature ⟨0, 32, 8, 8⟩).length = 5) ∧
    ((writeSignature stdPlatform).length = 6) ∧
    (∀ (r : Platform) (e b i f ver : Nat) (rest : List Nat),
      e < 256 → b < 2 ^ 63 → i < 2 ^ 63 → f < 2 ^ 63 → ver < 2 ^ 63 →
      readSignature r (sigBytes e b i f ver ++ rest) =
        if e = r.endian ∧ b = r.bits ∧ i = r.intSize ∧ f = r.floatSize ∧
           ver = SerialVersion
        then .ok rest else .error .valueError) :=
  ⟨rfl, rfl, fun r e b i f ver rest he hb hi hf hv =>
    readSignature_sigBytes r e b i f ver rest he hb hi hf hv⟩

/-- Witness for C7's amended theorem: a matching 64-bit signature is
accepted and a signature recording 32 bits is rejected by a 64-bit
reader. -/
theorem signature_spec_witness :
    readSignature stdPlatform (sigBytes 0 64 8 8 2 ++ [7]) = .ok [7] ∧
    readSignature stdPlatform (sigBytes 0 32 8 8 2 ++ [7]) =
      .error .valueError := by
  constructor
  · rw [signature_spec.2.2 stdPlatform 0 64 8 8 2 [7] (by norm_num)
      (by norm_num) (by norm_num) (by norm_num) (by norm_num)]
    simp [stdPlatform, SerialVersion]
  · rw [signature_spec.2.2 stdPlatform 0 32 8 8 2 [7] (by norm_num)
      (by norm_num) (by norm_num) (by norm_num) (by norm_num)]
    simp [stdPlatform, SerialVersion]

/-! ## Claim C5 -/

/-- Serializing a string never fails (it either becomes a back-reference
or its body is written), provided the transients table does not
substitute it. -/
theorem serString_ok (h : Heap) (trans : List (CrocValue × CrocValue))
    (fuel : Nat) (st : SerState) (s : List Nat)
    (htr : tableGet trans (.vstring s) = none) :
    ∃ st2, serValue h trans (fuel + 1) st (.vstring s) = .ok st2 := by
  simp only [serValue, htr]
  unfold alreadyWritten
  cases objLookup st.objTable (.vstring s) <;> exact ⟨_, rfl⟩

/-- The C5 counterexample heap: class 0 is frozen and finalizable and
named "C" (byte 67); instance 0 is an instance of it, finalizable, with
a function-valued `opSerialize` that serializes nothing; table 0 is the
transients table, substituting the class (the documented pattern) but
*not* the instance. -/
def c5Heap : Heap :=
  ⟨[⟨[(.vclass 0, .vstring [67])]⟩], [], [], [], [], [],
    [⟨[67], true, true, 0⟩], [⟨.vclass 0, 2, true, .ofunc [], 0⟩], []⟩

/-- Claim C5, counterexample: instance 0 of `c5Heap` is finalizable and
the transients table does not substitute it, so by the claim serializing
it must raise an error; instead, because it carries a function-valued
`opSerialize`, `_serializeInstance` takes the custom-serialization path
(which returns before the finalizer check) and serialization succeeds. -/
theorem finalizable_instance_serializes :
    c5Heap.instances[0]? = some ⟨.vclass 0, 2, true, .ofunc [], 0⟩ ∧
    tableGet (transEntries c5Heap (.vtable 0)) (.vinstance 0) = none ∧
    writeGraph c5Heap stdPlatform (.vinstance 0) (.vtable 0) 100 =
      .ok [0, 192, 0, 8, 8, 2, 14, 2, 17, 5, 1, 67, 1] :=
  ⟨rfl, rfl, rfl⟩

/-- Claim C5, amended: serialization raises `TypeError` on every
nativeobj and thread, and `ValueError` on every native function, every
memblock that does not own its data, every *frozen* finalizable class,
and every finalizable instance that does not provide a function-valued
`opSerialize` hook — in each case unless the transients map substitutes
a replacement, which is serialized under the `transient` tag instead. -/
theorem forbidden_values_error :
    (∀ h trans fuel st (id : Nat), tableGet trans (.vnativeobj id) = none →
      serValue h trans (fuel + 1) st (.vnativeobj id) = .error .typeError) ∧
    (∀ h trans fuel st (id : Nat), tableGet trans (.vthread id) = none →
      serValue h trans (fuel + 1) st (.vthread id) = .error .typeError) ∧
    (∀ h trans fuel st (id : Nat) fo,
      tableGet trans (.vfunction id) = none →
      objLookup st.objTable (.vfunction id) = none →
      h.functions[id]? = some fo → fo.isNative = true →
      serValue h trans (fuel + 1) st (.vfunction id) = .error .valueError) ∧
    (∀ h trans fuel st (id : Nat) mb,
      tableGet trans (.vmemblock id) = none →
      objLookup st.objTable (.vmemblock id) = none →
      h.memblocks[id]? = some mb → mb.ownData = false →
      serValue h trans (fuel + 1) st (.vmemblock id) = .error .valueError) ∧
    (∀ h trans fuel st (id : Nat) c,
      tableGet trans (.vclass id) = none →
      objLookup st.objTable (.vclass id) = none →
      h.classes[id]? = some c → c.frozen = true → c.finalizable = true →
      tableGet trans (.vstring c.name) = none →
      serValue h trans (fuel + 2) st (.vclass id) = .error .valueError) ∧
    (∀ h trans fuel st (id : Nat) io,
      tableGet trans (.vinstance id) = none →
      objLookup st.objTable (.vinstance id) = none →
      h.instances[id]? = some io → io.finalizable = true →
      (io.opSer = .absent ∨ io.opSer = .obool true) →
      ∀ st2, serValue h trans fuel st (.vinstance id) ≠ .ok st2) ∧
    (∀ h trans fuel st (v r : CrocValue), tableGet trans v = some r →
      serValue h trans (fuel + 1) st v =
        serValue h trans fuel (emit st [tagTransient]) r) := by
  refine ⟨?_, ?_, ?_, ?_, ?_, ?_, ?_⟩
  · intro h trans fuel st id htr
    simp [serValue, htr]
  · intro h trans fuel st id htr
    simp [serValue, htr]
  · intro h trans fuel st id fo htr hobj hlook hnat
    simp [serValue, htr, alreadyWritten, hobj, hlook, hnat]
  · intro h trans fuel st id mb htr hobj hlook hown
    simp [serValue, htr, alreadyWritten, hobj, hlook, hown]
  · intro h trans fuel st id c htr hobj hlook hfz hfin hname
    simp only [serValue, htr, hobj, hlook, hname, alreadyWritten, emit]
    cases hcase : objLookup (st.objTable ++ [(.vclass id, st.objIndex)])
        (.vstring c.name) <;>
      (simp [hcase, hfz, hfin]; try rfl)
  · intro h trans fuel st id io htr hobj hlook hfin hops st2
    match fuel with
    | 0 => simp [serValue]
    | fuel + 1 =>
      simp only [serValue, htr, alreadyWritten, hobj, hlook]
      cases hcls : serValue h trans fuel
        (emit ⟨st.out, st.objTable ++ [(.vinstance id, st.objIndex)],
          st.objIndex + 1⟩ (tagOf .instanceT :: serInteger io.size)) io.cls with
      | error e => exact fun hk => Except.noConfusion hk
      | ok st3 =>
        rcases hops with hops | hops <;> simp only [hops, hfin] <;>
          exact fun hk => Except.noConfusion hk
  · intro h trans fuel st v r htr
    simp [serValue, htr]

/-- Witness for C5's amended theorem at concrete inputs. -/
theorem forbidden_values_error_witness :
    serValue emptyHeap [] 1 ⟨[], [], 0⟩ (.vnativeobj 0) = .error .typeError ∧
    serValue ⟨[], [], [⟨false, [1]⟩], [], [], [], [], [], []⟩ [] 1 ⟨[], [], 0⟩
      (.vmemblock 0) = .error .valueError ∧
    serValue c5Heap [] 5 ⟨[], [], 0⟩ (.vclass 0) = .error .valueError :=
  ⟨forbidden_values_error.1 emptyHeap [] 0 ⟨[], [], 0⟩ 0 rfl,
   forbidden_values_error.2.2.2.1
     ⟨[], [], [⟨false, [1]⟩], [], [], [], [], [], []⟩ [] 0 ⟨[], [], 0⟩ 0
     ⟨false, [1]⟩ rfl rfl rfl rfl,
   forbidden_values_error.2.2.2.2.1 c5Heap [] 3 ⟨[], [], 0⟩ 0
     ⟨[67], true, true, 0⟩ rfl rfl rfl rfl rfl rfl⟩

/-! ## Claim C10 -/

/-- Reduction of the `Except` monad's bind on a success value. -/
theorem exbind_ok {ε α β : Type} (a : α) (f : α → Except ε β) :
    (do let x ← (Except.ok a : Except ε α); f x) = f a := rfl

/-- Reduction of the `Except` monad's bind on an error value. -/
theorem exbind_error {ε α β : Type} (e : ε) (f : α → Except ε β) :
    (do let x ← (Except.error e : Except ε α); f x) = Except.error e := rfl

/-- `_length` is insensitive to everything but the input bytes. -/
theorem dsLength_input (rest : List Nat) (ot : List CrocValue) (hp : Heap)
    (v : Int) (r2 : List Nat) (hdi : deserInteger rest = .ok (v, r2))
    (hbad : v < 0 ∨ 0xFFFFFFFF < v) :
    dsLength ⟨rest, ot, hp⟩ = .error .valueError := by
  simp [dsLength, dsInteger, hdi, hbad, exbind_ok]

/-- Claim C10: every length field the deserializer reads is validated by
`_length`: a decoded length that is negative or greater than
`0xFFFFFFFF` raises `ValueError` (shown for the string, table, memblock
and array impls — the array impl registers its empty shell first but
resizes only after validation), and a validated length is at most
`0xFFFFFFFF`, so a successfully deserialized string or memblock holds at
most `0xFFFFFFFF` bytes.  (The namespace impl is native; its model also
reads its entry count through `_length`.) -/
theorem length_field_validated :
    (∀ d n d2, dsLength d = .ok (n, d2) → n ≤ 0xFFFFFFFF) ∧
    (∀ d v d2, dsInteger d = .ok (v, d2) → (v < 0 ∨ 0xFFFFFFFF < v) →
      dsLength d = .error .valueError) ∧
    (∀ (trans : List (CrocValue × CrocValue)) (fuel : Nat)
      (rest : List Nat) (ot : List CrocValue) (hp : Heap) (v : Int)
      (r2 : List Nat), deserInteger rest = .ok (v, r2) →
      (v < 0 ∨ 0xFFFFFFFF < v) →
      deserValue trans (fuel + 1) ⟨tagOf .stringT :: rest, ot, hp⟩ =
        .error .valueError ∧
      deserValue trans (fuel + 1) ⟨tagOf .tableT :: rest, ot, hp⟩ =
        .error .valueError ∧
      deserValue trans (fuel + 1) ⟨tagOf .memblockT :: rest, ot, hp⟩ =
        .error .valueError ∧
      deserValue trans (fuel + 1) ⟨tagOf .arrayT :: rest, ot, hp⟩ =
        .error .valueError) ∧
    (∀ (trans : List (CrocValue × CrocValue)) (fuel : Nat)
      (rest : List Nat) (ot : List CrocValue) (hp : Heap)
      (v : CrocValue) (d2 : DeserState),
      deserValue trans (fuel + 1) ⟨tagOf .stringT :: rest, ot, hp⟩ =
        .ok (v, d2) →
      ∃ bs, v = .vstring bs ∧ bs.length ≤ 0xFFFFFFFF) ∧
    (∀ (trans : List (CrocValue × CrocValue)) (fuel : Nat)
      (rest : List Nat) (ot : List CrocValue) (hp : Heap)
      (v : CrocValue) (d2 : DeserState),
      deserValue trans (fuel + 1) ⟨tagOf .memblockT :: rest, ot, hp⟩ =
        .ok (v, d2) →
      ∃ id mo, v = .vmemblock id ∧ d2.heap.memblocks[id]? = some mo ∧
        mo.data.length ≤ 0xFFFFFFFF) := by
  refine ⟨?_, ?_, ?_, ?_, ?_⟩
  · intro d n d2 hok
    simp only [dsLength, dsInteger] at hok
    cases hdi : deserInteger d.input with
    | error e => rw [hdi] at hok; cases hok
    | ok p =>
      rw [hdi] at hok
      by_cases hbad : p.1 < 0 ∨ 0xFFFFFFFF < p.1
      · simp [exbind_ok, hbad] at hok
      · simp [exbind_ok, hbad] at hok
        omega
  · intro d v d2 hok hbad
    simp only [dsLength]
    rw [hok]
    simp [exbind_ok, hbad]
  · intro trans fuel rest ot hp v r2 hdi hbad
    refine ⟨?_, ?_, ?_, ?_⟩ <;>
      simp [deserValue, readByte, tagOf, CrocType.tag, dsLength, dsInteger,
        addObject, hdi, hbad, exbind_ok, exbind_error]
  · intro trans fuel rest ot hp v d2 hok
    simp only [deserValue, readByte, exbind_ok, exbind_error, tagOf,
      CrocType.tag] at hok
    norm_num [dsLength, dsInteger] at hok
    cases hdi : deserInteger rest with
    | error e => rw [hdi] at hok; simp [exbind_error] at hok
    | ok p =>
      rw [hdi] at hok
      simp only [exbind_ok] at hok
      by_cases hbad : p.1 < 0 ∨ 0xFFFFFFFF < p.1
      · simp [hbad, exbind_error] at hok
      · simp only [hbad, if_false, readBytes] at hok
        by_cases hlen : p.1.toNat ≤ p.2.length
        · simp only [hlen, if_true, exbind_ok] at hok
          cases hok
          refine ⟨_, rfl, ?_⟩
          rw [List.length_take]
          omega
        · simp only [exbind_ok] at hok
          rw [if_neg hlen] at hok
          simp [exbind_error] at hok
  · intro trans fuel rest ot hp v d2 hok
    simp only [deserValue, readByte, exbind_ok, exbind_error, tagOf,
      CrocType.tag] at hok
    norm_num [dsLength, dsInteger] at hok
    cases hdi : deserInteger rest with
    | error e => rw [hdi] at hok; simp [exbind_error] at hok
    | ok p =>
      rw [hdi] at hok
      simp only [exbind_ok] at hok
      by_cases hbad : p.1 < 0 ∨ 0xFFFFFFFF < p.1
      · simp [hbad, exbind_error] at hok
      · simp only [hbad, if_false, readBytes] at hok
        by_cases hlen : p.1.toNat ≤ p.2.length
        · simp only [hlen, if_true, exbind_ok] at hok
          cases hok
          refine ⟨hp.memblocks.length, ⟨true, List.take p.1.toNat p.2⟩, rfl, ?_, ?_⟩
          · simp
          · rw [List.length_take]
            omega
        · simp only [exbind_ok] at hok
          rw [if_neg hlen] at hok
          simp [exbind_error] at hok

/-- Concrete instance of `length_field_validated`: the varint `[0x7F]`
decodes to `-1`, which is rejected as a length, so a string tag followed
by it fails with `ValueError`. -/
theorem length_field_validated_witness :
    deserInteger [127] = .ok (-1, []) ∧
    ((-1 : Int) < 0 ∨ (0xFFFFFFFF : Int) < -1) ∧
    deserValue [] 1 ⟨tagOf .stringT :: [127], [], emptyHeap⟩ =
      .error .valueError :=
  ⟨rfl, by decide,
    (length_field_validated.2.2.1 [] 0 [127] [] emptyHeap (-1) [] (by rfl)
      (by decide)).1⟩

/-! ## Claim C8: modules (`serializeModule` / `deserializeModule`) -/

/-- `local ModuleFourCC = getCodec("ascii").encode("Croc")`: the ASCII
code units of `"Croc"`. -/
def ModuleFourCC : List Nat := [67, 114, 111, 99]

/-- `serializeModule(mod, name, output)`: throw `ValueError` if the
funcdef is not cacheable or already cached, write the magic, then
serialize the fresh two-element graph `[name, mod]` with a fresh empty
transients table. -/
def serializeModule (h : Heap) (p : Platform) (modId : Nat)
    (name : List Nat) (fuel : Nat) : Except Err (List Nat) :=
  match h.funcdefs[modId]? with
  | none => .error .heapError
  | some fd =>
    if fd.cacheable = false then .error .valueError
    else if fd.cached then .error .valueError
    else do
      let h2 := { h with
        arrays := h.arrays ++ [⟨[.vstring name, .vfuncdef modId]⟩],
        tables := h.tables ++ [⟨[]⟩] }
      let g ← serializeGraph h2 p (.varray h.arrays.length)
        (.vtable h.tables.length) fuel
      .ok (ModuleFourCC ++ g)

/-- The root-format check of `deserializeModule`
(`isArray(ret) && #ret == 2 && isString(ret[0]) && isFuncdef(ret[1])`):
the deserialized root must be a two-element `[string, funcdef]` array;
on success return the name bytes and the funcdef's heap slot. -/
def moduleRoot (d : DeserState) : CrocValue → Option (List Nat × Nat)
  | .varray id =>
    match d.heap.arrays[id]? with
    | some a =>
      match a.elems with
      | [.vstring s, .vfuncdef fid] => some (s, fid)
      | _ => none
    | none => none
  | _ => none

/-- `deserializeModule(input)`: check the four magic bytes, deserialize
the graph with a fresh empty transients table, check the root format and
that the funcdef is cacheable and uncached, and return the funcdef and
the name. -/
def deserializeModule (p : Platform) (input : List Nat) (fuel : Nat) :
    Except Err (CrocValue × CrocValue × DeserState) :=
  if input.length < 4 then .error .eofError
  else if List.take 4 input ≠ ModuleFourCC then .error .valueError
  else do
    let (ret, d2) ← deserializeGraph p [] (List.drop 4 input) fuel
    match moduleRoot d2 ret with
    | some (s, fid) =>
      match d2.heap.funcdefs[fid]? with
      | none => .error .heapError
      | some fd =>
        if !fd.cacheable || fd.cached then .error .valueError
        else .ok (.vfuncdef fid, .vstring s, d2)
    | none => .error .valueError

/-- A heap holding one cacheable, uncached funcdef. -/
def c8Heap : Heap := ⟨[], [], [], [], [], [⟨true, false, 5⟩], [], [], []⟩

/-- Claim C8: a serialized module is the ASCII magic `"Croc"` followed by
a serialized graph whose root is the fresh two-element array
`[name (string), funcdef]`; `serializeModule` raises `ValueError` unless
the funcdef is cacheable and uncached; `deserializeModule` raises
`ValueError` if the magic is wrong, if the root is not a two-element
`[string, funcdef]` array, or if that funcdef is not cacheable and
uncached, and on success returns the funcdef and the name; a concrete
module round-trips. -/
theorem module_format :
    (∀ (h : Heap) (p : Platform) (modId : Nat) (name : List Nat)
      (fuel : Nat) (fd : FuncDefObj) (g : List Nat),
      h.funcdefs[modId]? = some fd → fd.cacheable = true →
      fd.cached = false →
      serializeGraph { h with
          arrays := h.arrays ++ [⟨[.vstring name, .vfuncdef modId]⟩],
          tables := h.tables ++ [⟨[]⟩] } p (.varray h.arrays.length)
        (.vtable h.tables.length) fuel = .ok g →
      serializeModule h p modId name fuel = .ok (ModuleFourCC ++ g)) ∧
    (∀ (h : Heap) (p : Platform) (modId : Nat) (name : List Nat)
      (fuel : Nat) (fd : FuncDefObj),
      h.funcdefs[modId]? = some fd →
      (fd.cacheable = false ∨ fd.cached = true) →
      serializeModule h p modId name fuel = .error .valueError) ∧
    (∀ (p : Platform) (input : List Nat) (fuel : Nat),
      4 ≤ input.length → List.take 4 input ≠ ModuleFourCC →
      deserializeModule p input fuel = .error .valueError) ∧
    (∀ (p : Platform) (input : List Nat) (fuel : Nat) (ret : CrocValue)
      (d2 : DeserState), ¬ input.length < 4 →
      List.take 4 input = ModuleFourCC →
      deserializeGraph p [] (List.drop 4 input) fuel = .ok (ret, d2) →
      moduleRoot d2 ret = none →
      deserializeModule p input fuel = .error .valueError) ∧
    (∀ (p : Platform) (input : List Nat) (fuel : Nat) (ret : CrocValue)
      (d2 : DeserState) (s : List Nat) (fid : Nat) (fd : FuncDefObj),
      ¬ input.length < 4 → List.take 4 input = ModuleFourCC →
      deserializeGraph p [] (List.drop 4 input) fuel = .ok (ret, d2) →
      moduleRoot d2 ret = some (s, fid) →
      d2.heap.funcdefs[fid]? = some fd →
      (fd.cacheable = false ∨ fd.cached = true) →
      deserializeModule p input fuel = .error .valueError) ∧
    (∀ (p : Platform) (input : List Nat) (fuel : Nat)
      (m n : CrocValue) (d2 : DeserState),
      deserializeModule p input fuel = .ok (m, n, d2) →
      List.take 4 input = ModuleFourCC ∧
      ∃ ret s fid fd,
        deserializeGraph p [] (List.drop 4 input) fuel = .ok (ret, d2) ∧
        moduleRoot d2 ret = some (s, fid) ∧
        m = .vfuncdef fid ∧ n = .vstring s ∧
        d2.heap.funcdefs[fid]? = some fd ∧
        fd.cacheable = true ∧ fd.cached = false) ∧
    (serializeModule c8Heap stdPlatform 0 [104, 105] 100 =
      .ok [67, 114, 111, 99, 0, 192, 0, 8, 8, 2, 9, 2, 5, 2, 104, 105,
        12, 1, 5] ∧
     ∃ d2, deserializeModule stdPlatform
        [67, 114, 111, 99, 0, 192, 0, 8, 8, 2, 9, 2, 5, 2, 104, 105,
          12, 1, 5] 100 = .ok (.vfuncdef 0, .vstring [104, 105], d2)) := by
  refine ⟨?_, ?_, ?_, ?_, ?_, ?_, ?_, ?_⟩
  · intro h p modId name fuel fd g hfd hca hcd hg
    simp [serializeModule, hfd, hca, hcd, hg, exbind_ok]
  · intro h p modId name fuel fd hfd hbad
    rcases hbad with hb | hb <;> simp [serializeModule, hfd, hb]
  · intro p input fuel hlen hmag
    simp only [deserializeModule]
    rw [if_neg (by omega), if_pos hmag]
  · intro p input fuel ret d2 hlen hmag hde hmr
    simp only [deserializeModule]
    rw [if_neg hlen, if_neg (by simp [hmag]), hde]
    simp [exbind_ok, hmr]
  · intro p input fuel ret d2 s fid fd hlen hmag hde hmr hfd hbad
    simp only [deserializeModule]
    rw [if_neg hlen, if_neg (by simp [hmag]), hde]
    rcases hbad with hb | hb <;> simp [exbind_ok, hmr, hfd, hb]
  · intro p input fuel m n d2 hok
    simp only [deserializeModule] at hok
    by_cases hlen : input.length < 4
    · rw [if_pos hlen] at hok; cases hok
    · rw [if_neg hlen] at hok
      by_cases hmag : List.take 4 input ≠ ModuleFourCC
      · rw [if_pos hmag] at hok; cases hok
      · rw [if_neg hmag] at hok
        have hmag2 : List.take 4 input = ModuleFourCC := not_not.mp hmag
        refine ⟨hmag2, ?_⟩
        cases hde : deserializeGraph p [] (List.drop 4 input) fuel with
        | error e => rw [hde] at hok; simp [exbind_error] at hok
        | ok pr =>
          obtain ⟨ret, d2x⟩ := pr
          rw [hde] at hok
          simp only [exbind_ok] at hok
          cases hmr : moduleRoot d2x ret with
          | none => simp [hmr] at hok
          | some pr2 =>
            obtain ⟨s, fid⟩ := pr2
            simp only [hmr] at hok
            cases hfd : d2x.heap.funcdefs[fid]? with
            | none => simp [hfd] at hok
            | some fd =>
              simp only [hfd] at hok
              cases hca : fd.cacheable <;> cases hcd : fd.cached <;>
                simp [hca, hcd] at hok
              obtain ⟨hm, hn, hd2⟩ := hok
              subst hd2
              exact ⟨ret, s, fid, fd, rfl, hmr, hm.symm, hn.symm, hfd,
                hca, hcd⟩
  · rfl
  · exact ⟨_, rfl⟩

/-- A heap holding one funcdef that is already cached. -/
def c8BadHeap : Heap := ⟨[], [], [], [], [], [⟨true, true, 5⟩], [], [], []⟩

/-- Concrete instance of `module_format`: a funcdef that is already
cached is rejected by `serializeModule`. -/
theorem module_format_witness :
    c8BadHeap.funcdefs[0]? = some ⟨true, true, 5⟩ ∧
    serializeModule c8BadHeap stdPlatform 0 [104, 105] 100 =
      .error .valueError :=
  ⟨by rfl,
    module_format.2.1 c8BadHeap stdPlatform 0 [104, 105] 100
      ⟨true, true, 5⟩ (by rfl) (Or.inr rfl)⟩

/-! ## Claim C9: the container hash table (`croc/base/hash.hpp`)

`Hash<K, V, DefaultHasher, HashNode>` with coalesced chaining.  Pointers
into `mNodes` are modelled as indices; `DefaultHasher::toHash` casts the
key to `hash_t` (`uint32_t`); of the node flags only `NodeFlags_Used` is
modelled (the two modified flags never affect insert or lookup).  The
unbounded C++ loops (chain walks, the predecessor walk) run on fuel
`mNodes.length + 1`, enough for every acyclic chain; a broken chain or
out-of-range pointer, undefined behaviour in C++, yields `none`. -/

/-- `DefaultHasher::toHash`: `cast(hash_t)*t` with `hash_t = uint32_t`. -/
def toHash (k : Nat) : Nat := k % 2 ^ 32

/-- `HashNode<K, V>`: key, value, `next` pointer and the `Used` flag. -/
structure HNode where
  key : Nat
  value : Nat
  next : Option Nat
  used : Bool
deriving DecidableEq, Repr

/-- `Hash`: `mNodes`, `mHashMask`, `mColBucket` (an index into
`mNodes`), `mSize`. -/
structure HashT where
  nodes : List HNode
  hashMask : Nat
  colBucket : Nat
  size : Nat
deriving DecidableEq, Repr

/-- `Hash::length()`. -/
def HashT.length (t : HashT) : Nat := t.size

/-- Write through a node pointer: replace node `i` by `f` of it (a write
through a valid pointer; out of range changes nothing). -/
def updNode (nodes : List HNode) (i : Nat) (f : HNode → HNode) :
    List HNode :=
  match nodes[i]? with
  | some n => nodes.set i (f n)
  | none => nodes

/-- The loop of `Hash::lookupNode`: follow `next` from node `i` while
the node exists and is used, returning the first node whose key equals
`k`. -/
def chainLookup (nodes : List HNode) (k : Nat) :
    Nat → Option Nat → Option Nat
  | _, none => none
  | 0, some _ => none
  | fuel + 1, some i =>
    match nodes[i]? with
    | none => none
    | some n =>
      if n.used = false then none
      else if n.key = k then some i
      else chainLookup nodes k fuel n.next

/-- `Hash::lookupNode(key, hash)`. -/
def lookupNode (t : HashT) (k : Nat) : Option Nat :=
  if t.nodes.length = 0 then none
  else chainLookup t.nodes k (t.nodes.length + 1)
    (some (toHash k &&& t.hashMask))

/-- `Hash::lookup(key)`: the address of the found node's value slot,
modelled as the node's index. -/
def lookup (t : HashT) (k : Nat) : Option Nat := lookupNode t k

/-- The scan of `Hash::getColBucket`: the first unused node at or after
index `i` (fuel covers the remaining array). -/
def findUnused (nodes : List HNode) (i : Nat) : Nat → Option Nat
  | 0 => none
  | fuel + 1 =>
    match nodes[i]? with
    | none => none
    | some n => if n.used then findUnused nodes (i + 1) fuel else some i

/-- `Hash::getColBucket`: advance `mColBucket` to the first free node
and return it, or `none` when the array is full. -/
def getColBucket (t : HashT) : Option (Nat × HashT) :=
  match findUnused t.nodes t.colBucket t.nodes.length with
  | some i => some (i, { t with colBucket := i })
  | none => none

/-- The predecessor walk of `Hash::insertNode`'s second collision case:
`while(otherNode->next != mainPosNode) otherNode = otherNode->next`. -/
def walkPred (nodes : List HNode) (b : Nat) : Nat → Nat → Option Nat
  | 0, _ => none
  | fuel + 1, i =>
    match nodes[i]? with
    | none => none
    | some n =>
      if n.next = some b then some i
      else
        match n.next with
        | some j => walkPred nodes b fuel j
        | none => none

/-- The tail of `Hash::insertNode`: `mainPosNode->init(hash)` (a no-op
for `HashNode`), `mainPosNode->key = key`, `SET_USED`, `mSize++`, return
the node. -/
def finishInsert (t : HashT) (k : Nat) (target : Nat) :
    Option (HashT × Nat) :=
  match t.nodes[target]? with
  | none => none
  | some n =>
    some ({ t with
      nodes := t.nodes.set target { n with key := k, used := true },
      size := t.size + 1 }, target)

/-- The body of `Hash::insertNode` after the free collision bucket `cb`
has been found: the main-position node `b`, the two occupied-slot cases
(head of its own list: chain the new entry in at `cb`; middle of another
list: push the squatter out to `cb`) and the free case. -/
def insertAt (t : HashT) (k : Nat) (cb : Nat) : Option (HashT × Nat) :=
  let b := toHash k &&& t.hashMask
  match t.nodes[b]? with
  | none => none
  | some nb =>
    if nb.used then
      if toHash nb.key &&& t.hashMask = b then
        let nodes2 := updNode t.nodes cb fun n => { n with next := nb.next }
        let nodes3 := updNode nodes2 b fun n => { n with next := some cb }
        finishInsert { t with nodes := nodes3 } k cb
      else
        match walkPred t.nodes b (t.nodes.length + 1)
            (toHash nb.key &&& t.hashMask) with
        | none => none
        | some pred =>
          let nodes2 := updNode t.nodes pred fun n => { n with next := some cb }
          match nodes2[b]? with
          | none => none
          | some nb2 =>
            let nodes3 := updNode nodes2 cb fun _ => nb2
            let nodes4 := updNode nodes3 b fun n => { n with next := none }
            finishInsert { t with nodes := nodes4 } k b
    else
      let nodes2 := updNode t.nodes b fun n => { n with next := none }
      finishInsert { t with nodes := nodes2 } k b

/-- `Hash::insertNode` without the rehash fallback (used by
`resizeArray`, where the fresh array always has a free bucket). -/
def insertNoRehash (t : HashT) (k : Nat) : Option (HashT × Nat) :=
  match lookupNode t k with
  | some i => some (t, i)
  | none =>
    match getColBucket t with
    | none => none
    | some (cb, t1) => insertAt t1 k cb

/-- `Hash::resizeArray`: allocate `newSize` fresh nodes, reset the mask,
collision cursor and size, and re-insert every used node of the old
array (`copyFrom` copies the value). -/
def resizeArray (t : HashT) (newSize : Nat) : Option HashT :=
  t.nodes.foldl
    (fun acc n =>
      match acc with
      | none => none
      | some t2 =>
        if n.used then
          match insertNoRehash t2 n.key with
          | none => none
          | some (t3, i) =>
            some { t3 with
              nodes := updNode t3.nodes i fun m => { m with value := n.value } }
        else some t2)
    (some ⟨List.replicate newSize ⟨0, 0, none, false⟩, newSize - 1, 0, 0⟩)

/-- `Hash::rehash`: double the array (or start at 4). -/
def rehash (t : HashT) : Option HashT :=
  if t.nodes.length ≠ 0 then resizeArray t (t.nodes.length * 2)
  else resizeArray t 4

/-- `Hash::insertNode`: return an existing node for the key if there is
one; otherwise grab a collision bucket (rehashing first if the array is
full) and insert. -/
def insertNode (t : HashT) (k : Nat) : Option (HashT × Nat) :=
  match lookupNode t k with
  | some i => some (t, i)
  | none =>
    match getColBucket t with
    | some (cb, t1) => insertAt t1 k cb
    | none =>
      match rehash t with
      | none => none
      | some tr =>
        match getColBucket tr with
        | none => none
        | some (cb, t1) => insertAt t1 k cb

/-- `updNode` never changes the array's length. -/
theorem updNode_length (l : List HNode) (i : Nat) (f : HNode → HNode) :
    (updNode l i f).length = l.length := by
  unfold updNode
  cases h : l[i]? <;> simp

/-- Reading back a node just written through `updNode`. -/
theorem updNode_get_self (l : List HNode) (i : Nat) (f : HNode → HNode)
    (n : HNode) (h : l[i]? = some n) : (updNode l i f)[i]? = some (f n) := by
  unfold updNode
  rw [h]
  exact List.getElem?_set_self (List.getElem?_eq_some.mp h).1

/-- `updNode` leaves every other slot alone. -/
theorem updNode_get_ne (l : List HNode) (i j : Nat) (f : HNode → HNode)
    (h : j ≠ i) : (updNode l i f)[j]? = l[j]? := by
  unfold updNode
  cases hi : l[i]? with
  | none => rfl
  | some n => exact List.getElem?_set_ne (Ne.symm h)

/-- A hit in the first chain position. -/
theorem lookupNode_head (t : HashT) (k : Nat) (n : HNode)
    (hn : t.nodes[toHash k &&& t.hashMask]? = some n)
    (hused : n.used = true) (hkey : n.key = k) :
    lookupNode t k = some (toHash k &&& t.hashMask) := by
  have hlen := (List.getElem?_eq_some.mp hn).1
  unfold lookupNode
  rw [if_neg (by omega)]
  simp [chainLookup, hn, hused, hkey]

/-- A hit in the second chain position. -/
theorem lookupNode_second (t : HashT) (k : Nat) (n m : HNode) (j : Nat)
    (hn : t.nodes[toHash k &&& t.hashMask]? = some n)
    (hused : n.used = true) (hkey : n.key ≠ k) (hnext : n.next = some j)
    (hm : t.nodes[j]? = some m) (hmu : m.used = true) (hmk : m.key = k) :
    lookupNode t k = some j := by
  have hlen := (List.getElem?_eq_some.mp hn).1
  unfold lookupNode
  rw [if_neg (by omega)]
  obtain ⟨L, hL⟩ : ∃ L, t.nodes.length = L + 1 := ⟨t.nodes.length - 1, by omega⟩
  rw [hL]
  simp [chainLookup, hn, hused, hkey, hnext, hm, hmu, hmk]

/-- A missed lookup means the main-position node (when used) holds a
different key. -/
theorem lookupNode_miss_head (t : HashT) (k : Nat) (nb : HNode)
    (hb : t.nodes[toHash k &&& t.hashMask]? = some nb)
    (hu : nb.used = true) (hlk : lookupNode t k = none) : nb.key ≠ k := by
  intro hk
  have hlen := (List.getElem?_eq_some.mp hb).1
  unfold lookupNode at hlk
  rw [if_neg (by omega)] at hlk
  simp [chainLookup, hb, hu, hk] at hlk

/-- `findUnused` returns an unused node. -/
theorem findUnused_spec (nodes : List HNode) :
    ∀ (fuel i j : Nat), findUnused nodes i fuel = some j →
      ∃ n, nodes[j]? = some n ∧ n.used = false := by
  intro fuel
  induction fuel with
  | zero => intro i j h; exact Option.noConfusion h
  | succ fuel ih =>
    intro i j h
    unfold findUnused at h
    cases hni : nodes[i]? with
    | none => rw [hni] at h; exact Option.noConfusion h
    | some n =>
      simp only [hni] at h
      cases hnu : n.used with
      | true => rw [hnu] at h; simp only [if_true] at h; exact ih (i + 1) j h
      | false =>
        rw [hnu] at h
        simp only [Bool.false_eq_true, if_false, Option.some.injEq] at h
        exact ⟨n, h ▸ hni, hnu⟩

/-- What `getColBucket` guarantees: same nodes, mask and size, only the
collision cursor moved, and the returned slot is free. -/
theorem getColBucket_spec (t : HashT) (cb : Nat) (t1 : HashT)
    (h : getColBucket t = some (cb, t1)) :
    t1 = { t with colBucket := cb } ∧
      ∃ n, t.nodes[cb]? = some n ∧ n.used = false := by
  unfold getColBucket at h
  cases hf : findUnused t.nodes t.colBucket t.nodes.length with
  | none => rw [hf] at h; exact Option.noConfusion h
  | some j =>
    rw [hf] at h
    simp only [Option.some.injEq, Prod.mk.injEq] at h
    obtain ⟨hj, ht1⟩ := h
    subst hj
    exact ⟨ht1.symm, findUnused_spec t.nodes t.nodes.length t.colBucket _ hf⟩

/-- The core of claim C9: inserting a missing key at a free collision
bucket makes the key findable at the returned node and grows the size by
one, in each of the three occupancy cases of `insertNode`. -/
theorem insertAt_lookup (t : HashT) (k cb : Nat) (ncb : HNode)
    (hcb : t.nodes[cb]? = some ncb) (hu : ncb.used = false)
    (hlk : lookupNode t k = none) (t2 : HashT) (i : Nat)
    (h : insertAt t k cb = some (t2, i)) :
    lookup t2 k = some i ∧ t2.size = t.size + 1 := by
  have hcbl : cb < t.nodes.length := (List.getElem?_eq_some.mp hcb).1
  simp only [insertAt] at h
  cases hb : t.nodes[toHash k &&& t.hashMask]? with
  | none => rw [hb] at h; exact Option.noConfusion h
  | some nb =>
    simp only [hb] at h
    have hbl : toHash k &&& t.hashMask < t.nodes.length :=
      (List.getElem?_eq_some.mp hb).1
    cases hnu : nb.used with
    | false =>
      rw [hnu] at h
      rw [if_neg (by simp)] at h
      have hub := updNode_get_self t.nodes (toHash k &&& t.hashMask)
        (fun n => { n with next := none }) nb hb
      simp only [finishInsert, hub, Option.some.injEq, Prod.mk.injEq] at h
      obtain ⟨ht2, hi⟩ := h
      subst ht2; subst hi
      refine ⟨?_, rfl⟩
      unfold lookup
      refine lookupNode_head _ _
        { nb with next := none, key := k, used := true } ?_ rfl rfl
      exact List.getElem?_set_self (by rw [updNode_length]; exact hbl)
    | true =>
      rw [hnu] at h
      rw [if_pos rfl] at h
      have hkne : nb.key ≠ k := lookupNode_miss_head t k nb hb hnu hlk
      have hbcb : toHash k &&& t.hashMask ≠ cb := by
        intro e
        rw [e] at hb
        have hne : nb = ncb := Option.some.inj (hb.symm.trans hcb)
        rw [hne, hu] at hnu
        exact Bool.noConfusion hnu
      by_cases hoth : toHash nb.key &&& t.hashMask = toHash k &&& t.hashMask
      · rw [if_pos hoth] at h
        have h1 : (updNode t.nodes cb
            fun n => { n with next := nb.next })[cb]? =
            some { ncb with next := nb.next } :=
          updNode_get_self _ _ _ _ hcb
        have h2 : (updNode (updNode t.nodes cb
            fun n => { n with next := nb.next }) (toHash k &&& t.hashMask)
            fun n => { n with next := some cb })[cb]? =
            some { ncb with next := nb.next } := by
          rw [updNode_get_ne _ _ _ _ (Ne.symm hbcb)]
          exact h1
        simp only [finishInsert, h2, Option.some.injEq, Prod.mk.injEq] at h
        obtain ⟨ht2, hi⟩ := h
        subst ht2; subst hi
        refine ⟨?_, rfl⟩
        unfold lookup
        refine lookupNode_second _ _ { nb with next := some cb }
          { ncb with next := nb.next, key := k, used := true } cb ?_
          (by simpa using hnu) (by simpa using hkne) rfl ?_ rfl rfl
        · show (List.set _ _ _)[toHash k &&& t.hashMask]? = _
          rw [List.getElem?_set_ne (Ne.symm hbcb)]
          rw [updNode_get_self]
          rw [updNode_get_ne _ _ _ _ hbcb]
          exact hb
        · exact List.getElem?_set_self
            (by rw [updNode_length, updNode_length]; exact hcbl)
      · rw [if_neg hoth] at h
        cases hwp : walkPred t.nodes (toHash k &&& t.hashMask)
            (t.nodes.length + 1) (toHash nb.key &&& t.hashMask) with
        | none => rw [hwp] at h; exact Option.noConfusion h
        | some pred =>
          simp only [hwp] at h
          cases hb2 : (updNode t.nodes pred
              fun n => { n with next := some cb })[toHash k &&& t.hashMask]? with
          | none => rw [hb2] at h; exact Option.noConfusion h
          | some nb2 =>
            simp only [hb2] at h
            have h3 : (updNode (updNode t.nodes pred
                fun n => { n with next := some cb }) cb
                fun _ => nb2)[toHash k &&& t.hashMask]? = some nb2 := by
              rw [updNode_get_ne _ _ _ _ hbcb]
              exact hb2
            have h4 := updNode_get_self _ (toHash k &&& t.hashMask)
              (fun n => { n with next := none }) nb2 h3
            simp only [finishInsert, h4, Option.some.injEq, Prod.mk.injEq] at h
            obtain ⟨ht2, hi⟩ := h
            subst ht2; subst hi
            refine ⟨?_, rfl⟩
            unfold lookup
            refine lookupNode_head _ _
              { nb2 with next := none, key := k, used := true } ?_ rfl rfl
            exact List.getElem?_set_self
              (by rw [updNode_length, updNode_length, updNode_length]
                  exact hbl)

/-- An empty two-slot table. -/
def c9Table : HashT :=
  ⟨[⟨0, 0, none, false⟩, ⟨0, 0, none, false⟩], 1, 0, 0⟩

/-- Claim C9: every key maps to at most one node.  `insertNode` on a
present key returns the existing node and the unchanged table (so
`length()` is unchanged and no duplicate node is created); on a missing
key — whether a free collision bucket exists or the table is rehashed
first (in which case the key, absent from the table, is still absent
from the rehash) — the insert succeeds at some node `i`, `lookup` then
finds exactly node `i` (a pointer to that node's value slot), and
`length()` grows by one; `lookup` is `lookupNode`'s value slot. -/
theorem hash_key_unique :
    (∀ (t : HashT) (k i : Nat), lookupNode t k = some i →
      insertNode t k = some (t, i)) ∧
    (∀ (t : HashT) (k cb : Nat) (t1 t2 : HashT) (i : Nat),
      lookupNode t k = none → getColBucket t = some (cb, t1) →
      insertNode t k = some (t2, i) →
      lookup t2 k = some i ∧ HashT.length t2 = HashT.length t + 1) ∧
    (∀ (t : HashT) (k : Nat) (tr t2 : HashT) (i : Nat),
      lookupNode t k = none → getColBucket t = none →
      rehash t = some tr → lookupNode tr k = none →
      insertNode t k = some (t2, i) →
      lookup t2 k = some i ∧ HashT.length t2 = HashT.length tr + 1) ∧
    (∀ (t : HashT) (k : Nat), lookup t k = lookupNode t k) := by
  refine ⟨?_, ?_, ?_, fun t k => rfl⟩
  · intro t k i hlk
    simp [insertNode, hlk]
  · intro t k cb t1 t2 i hlk hgcb hins
    simp only [insertNode, hlk, hgcb] at hins
    obtain ⟨ht1, n, hn, hnu⟩ := getColBucket_spec t cb t1 hgcb
    subst ht1
    exact insertAt_lookup { t with colBucket := cb } k cb n hn hnu hlk
      t2 i hins
  · intro t k tr t2 i hlk hgcb hre hlkr hins
    simp only [insertNode, hlk, hgcb, hre] at hins
    cases hgcb2 : getColBucket tr with
    | none => rw [hgcb2] at hins; exact Option.noConfusion hins
    | some pr =>
      obtain ⟨cb, t1⟩ := pr
      simp only [hgcb2] at hins
      obtain ⟨ht1, n, hn, hnu⟩ := getColBucket_spec tr cb t1 hgcb2
      subst ht1
      exact insertAt_lookup { tr with colBucket := cb } k cb n hn hnu hlkr
        t2 i hins

/-- Concrete instance of `hash_key_unique`: inserting key 5 into the
empty two-slot table puts it in node 1, where `lookup` finds it, and the
length grows from 0 to 1. -/
theorem hash_key_unique_witness :
    lookupNode c9Table 5 = none ∧
    (lookup (⟨[⟨0, 0, none, false⟩, ⟨5, 0, none, true⟩], 1, 0, 1⟩ : HashT)
        5 = some 1 ∧
      HashT.length
        (⟨[⟨0, 0, none, false⟩, ⟨5, 0, none, true⟩], 1, 0, 1⟩ : HashT) =
        HashT.length c9Table + 1) :=
  ⟨rfl, hash_key_unique.2.1 c9Table 5 0 c9Table _ 1 rfl rfl rfl⟩

end Croc
